import Mathlib

/-!
Verification of the continuous-streaming core of navidrome-radio.

This file gives a shallow embedding, in Lean, of the parts of the Rust
source under src/backend/src that the checked claims speak about:

* `services/audio_pipeline.rs`  — the per-station audio pipeline (producer
  loop, `read_samples`, `skip`, queueing), modelled as an explicit state
  machine `PState` driven by `PStep`s.
* `services/audio_broadcaster.rs` — the HLS broadcaster state
  (`BroadcasterState`), segment production with window eviction, the skip
  protocol, playlist rendering (`get_playlist`) and the `start` guard.
* `api/library.rs` — the embedding-control state machine handlers.
* `services/audio_encoder.rs` — `normalize_embedding` (over `ℝ`; the
  source computes in `f32`, the claims' 1e-4 tolerance absorbs rounding).
* `services/hybrid_curator.rs` — `fill_gaps_between_seeds`.
* `services/seed_selector.rs` — `extract_first_json_object` /
  `find_json_object`.

PCM sample values are never inspected by the buffering logic, so samples
are modelled as integers; `f32` durations are modelled as exact rationals.
Traces of `event_tx.send(...)` and of the samples handed out by
`read_samples` are kept as explicit lists in the state, and the pipeline
state additionally carries a ghost `log` (one entry per loaded track,
recording how many of its samples were drained and whether a skip cut it
short); the ghost fields influence no modelled behaviour.
-/

/-! ### Audio broadcaster (services/audio_broadcaster.rs) -/

/-- Target sample rate, `audio_pipeline.rs` `OUTPUT_SAMPLE_RATE`. -/
def OUTPUT_SAMPLE_RATE : Nat := 44100

/-- Stereo channel count, `audio_pipeline.rs` `OUTPUT_CHANNELS`. -/
def OUTPUT_CHANNELS : Nat := 2

/-- Interleaved samples per MP3 frame (`1152 * OUTPUT_CHANNELS`). -/
def MP3_FRAME_SAMPLES : Nat := 1152 * OUTPUT_CHANNELS

/-- `AudioBroadcasterConfig` (the fields the claims touch).
`segment_duration` is an `f32` in the source, modelled as a rational. -/
structure AudioBroadcasterConfig where
  segment_duration : ℚ
  playlist_length : Nat
deriving DecidableEq

/-- The `Default` impl: 2.0 s segments, playlist length 5. -/
def default_broadcaster_config : AudioBroadcasterConfig :=
  { segment_duration := 2, playlist_length := 5 }

/-- `raw_samples` as computed in `AudioBroadcaster::start`:
`(segment_duration * 44100) as usize * OUTPUT_CHANNELS` (the `as usize`
cast truncates the nonnegative float, i.e. takes the floor). -/
def raw_samples (cfg : AudioBroadcasterConfig) : Nat :=
  (Int.toNat ⌊cfg.segment_duration * (OUTPUT_SAMPLE_RATE : ℚ)⌋) * OUTPUT_CHANNELS

/-- `samples_per_segment`: `raw_samples` rounded up to a whole number of
MP3 frames, `((raw + frame - 1) / frame) * frame` in integer arithmetic. -/
def samples_per_segment (cfg : AudioBroadcasterConfig) : Nat :=
  ((raw_samples cfg + MP3_FRAME_SAMPLES - 1) / MP3_FRAME_SAMPLES) * MP3_FRAME_SAMPLES

/-- `actual_segment_duration = samples_per_segment / (44100 * 2)` seconds. -/
def actual_segment_duration (cfg : AudioBroadcasterConfig) : ℚ :=
  (samples_per_segment cfg : ℚ) / ((OUTPUT_SAMPLE_RATE : ℚ) * (OUTPUT_CHANNELS : ℚ))

/-- `HlsSegment`; the MP3 payload bytes are opaque and modelled as a list
of naturals. -/
structure HlsSegment where
  sequence : Nat
  duration : ℚ
  data : List Nat
  track_id : String
deriving DecidableEq

/-- `BroadcasterState` from `audio_broadcaster.rs`. -/
structure BroadcasterState where
  segments : List HlsSegment
  sequence : Nat
  playlist_length : Nat
  current_track_id : String
  media_sequence : Nat
  discontinuity : Bool
deriving DecidableEq

/-- `AudioBroadcaster::new`: empty window, sequence 0, no discontinuity. -/
def broadcaster_new (cfg : AudioBroadcasterConfig) : BroadcasterState :=
  { segments := [], sequence := 0, playlist_length := cfg.playlist_length,
    current_track_id := "", media_sequence := 0, discontinuity := false }

/-- The eviction loop after a push:
`while segments.len() > playlist_length + 2 { pop_front; media_sequence += 1 }`. -/
def evict_old (pl : Nat) : List HlsSegment → Nat → List HlsSegment × Nat
  | [], ms => ([], ms)
  | s :: rest, ms =>
    if (s :: rest).length > pl + 2 then evict_old pl rest (ms + 1)
    else (s :: rest, ms)

/-- The `HlsSegment` built for the current sequence number
(`audio_broadcaster.rs:501-506`). -/
def new_segment (cfg : AudioBroadcasterConfig) (mp3_data : List Nat)
    (st : BroadcasterState) : HlsSegment :=
  { sequence := st.sequence, duration := actual_segment_duration cfg,
    data := mp3_data, track_id := st.current_track_id }

/-- One pass of the segment-production tail of the broadcast loop
(`audio_broadcaster.rs:497-515`): if the encoder returned no bytes the
segment is skipped; otherwise a segment with the next sequence number and
the frame-aligned duration is appended and old segments are evicted. -/
def produce_segment (cfg : AudioBroadcasterConfig) (mp3_data : List Nat)
    (st : BroadcasterState) : BroadcasterState :=
  if mp3_data = [] then st
  else
    { st with
      sequence := st.sequence + 1,
      segments := (evict_old st.playlist_length
        (st.segments ++ [new_segment cfg mp3_data st]) st.media_sequence).1,
      media_sequence := (evict_old st.playlist_length
        (st.segments ++ [new_segment cfg mp3_data st]) st.media_sequence).2 }

/-- Step (4) of `AudioBroadcaster::skip` (`audio_broadcaster.rs:260-269`):
clear the window, advance `media_sequence` by the number of dropped
segments, mark the discontinuity. -/
def broadcaster_skip_state (st : BroadcasterState) : BroadcasterState :=
  { st with media_sequence := st.media_sequence + st.segments.length,
            segments := [], discontinuity := true }

/-- The `TrackStarted` handler in the broadcast loop: update
`current_track_id`. -/
def set_current_track (id : String) (st : BroadcasterState) : BroadcasterState :=
  { st with current_track_id := id }

/-- Decimal digits of `n` padded on the left with `'0'` to width 3;
helper for the `\x7b:.3\x7d` format below. -/
def pad3 (n : Nat) : String :=
  let s := toString n
  String.mk (List.replicate (3 - s.length) '0') ++ s

/-- Rust's `format!("\x7b:.3\x7d", d)` for a nonnegative duration: the value
rounded to the nearest thousandth, printed with exactly 3 decimals. -/
def fmt3 (d : ℚ) : String :=
  let th := Int.toNat (round (d * 1000))
  toString (th / 1000) ++ "." ++ pad3 (th % 1000)

/-- The `#EXTINF` line pushed for one segment. -/
def extinf_line (d : ℚ) : String := "#EXTINF:" ++ fmt3 d ++ ","

/-- The `segment/<sequence>.mp3` line pushed for one segment. -/
def segment_uri_line (n : Nat) : String := "segment/" ++ toString n ++ ".mp3"

/-- The discontinuity tag line. -/
def disc_line : String := "#EXT-X-DISCONTINUITY"

/-- The four header lines of `get_playlist`; note the target duration is
`config.segment_duration.ceil()`, from the configured (not frame-aligned)
duration. -/
def header_lines (cfg : AudioBroadcasterConfig) (st : BroadcasterState) : List String :=
  ["#EXTM3U",
   "#EXT-X-VERSION:3",
   "#EXT-X-TARGETDURATION:" ++ toString (Int.toNat ⌈cfg.segment_duration⌉),
   "#EXT-X-MEDIA-SEQUENCE:" ++ toString st.media_sequence]

/-- The two lines pushed per segment in the rendering loop. -/
def seg_lines (s : HlsSegment) : List String :=
  [extinf_line s.duration, segment_uri_line s.sequence]

/-- The segment part of the playlist: the discontinuity tag is emitted
only before the first segment (`i == 0 && has_discontinuity`), so an
empty window yields no tag at all. -/
def playlist_body (disc : Bool) : List HlsSegment → List String
  | [] => []
  | s :: rest => (if disc then [disc_line] else []) ++ ((s :: rest).map seg_lines).flatten

/-- The list of lines pushed by `AudioBroadcaster::get_playlist`, in
order; the rendered string is their concatenation with `"\n"` after each. -/
def playlist_lines (cfg : AudioBroadcasterConfig) (st : BroadcasterState) : List String :=
  header_lines cfg st ++ playlist_body st.discontinuity st.segments

/-- `get_playlist` renders under the state write lock and clears the
discontinuity flag; result = (lines, state after rendering). -/
def get_playlist (cfg : AudioBroadcasterConfig) (st : BroadcasterState) :
    List String × BroadcasterState :=
  (playlist_lines cfg st, { st with discontinuity := false })

/-- The operations that mutate a `BroadcasterState` during a run. -/
inductive BOp where
  | produce (mp3_data : List Nat)
  | skip
  | trackStarted (id : String)
  | render
deriving DecidableEq

/-- Apply one operation. -/
def broadcaster_step (cfg : AudioBroadcasterConfig) (st : BroadcasterState) :
    BOp → BroadcasterState
  | .produce d => produce_segment cfg d st
  | .skip => broadcaster_skip_state st
  | .trackStarted id => set_current_track id st
  | .render => (get_playlist cfg st).2

/-- Run a list of operations from a state. -/
def broadcaster_run (cfg : AudioBroadcasterConfig) (ops : List BOp)
    (st : BroadcasterState) : BroadcasterState :=
  ops.foldl (broadcaster_step cfg) st

/-- The `AudioBroadcaster` handle fields that `start` touches:
`running` (an `AtomicBool`), the shared state, and `start_time`. -/
structure BroadcasterHandle where
  state : BroadcasterState
  running : Bool
  start_time : Nat
deriving DecidableEq

/-- What a call to `AudioBroadcaster::start` did: the handle afterwards,
whether it returned `Ok`, and whether it spawned the encoder thread and
the broadcast loop. -/
structure BroadcasterStartOutcome where
  handle : BroadcasterHandle
  returned_ok : Bool
  spawned_encoder_thread : Bool
  spawned_broadcast_loop : Bool
deriving DecidableEq

/-- `AudioBroadcaster::start` (`audio_broadcaster.rs:294-303`):
`if self.running.swap(true) \x7b return Ok(()) \x7d` — when already running it
returns `Ok` before touching `start_time` or spawning anything; otherwise
it sets `running`, records the start time and spawns both workers. -/
def audio_broadcaster_start (b : BroadcasterHandle) (now : Nat) : BroadcasterStartOutcome :=
  if b.running then
    { handle := b, returned_ok := true,
      spawned_encoder_thread := false, spawned_broadcast_loop := false }
  else
    { handle := { b with running := true, start_time := now },
      returned_ok := true,
      spawned_encoder_thread := true, spawned_broadcast_loop := true }

/-! ### Audio pipeline (services/audio_pipeline.rs) -/

/-- A queued track together with the sample vector that
`fetch_and_decode` produces for it (the decode result is data of the
environment; sample values are opaque to the pipeline). -/
structure Track where
  track_id : String
  title : String
  artist : String
  samples : List Int
deriving DecidableEq

/-- `BufferedTrack`. -/
structure BufferedTrack where
  track_id : String
  title : String
  artist : String
  total_samples : Nat
  consumed_samples : Nat
deriving DecidableEq

/-- `TrackState` (durations and positions in seconds, as exact rationals). -/
structure TrackState where
  track_id : String
  title : String
  artist : String
  duration_secs : ℚ
  position_secs : ℚ
deriving DecidableEq

/-- `PipelineEvent` (the `PositionUpdate` variant is never sent by the
source and is omitted). -/
inductive PipelineEvent where
  | trackStarted (state : TrackState)
  | trackEnded (track_id : String)
  | stopped
  | error (msg : String)
deriving DecidableEq

/-- Ghost bookkeeping: one entry per track popped from the queue and
decoded, recording how many of its samples `read_samples` has handed out
(`sent`) and whether a `skip` discarded its tail (`cut`). -/
structure LogEntry where
  track : Track
  sent : Nat
  cut : Bool
deriving DecidableEq

/-- The pipeline state: the fields of `AudioBuffer` and `PipelineState`,
plus the observable traces (`events`, `drained`) and the ghost `log`. -/
structure PState where
  max_samples : Nat
  track_queue : List Track
  samples : List Int
  current_track : Option BufferedTrack
  running : Bool
  current_state : Option TrackState
  events : List PipelineEvent
  drained : List Int
  log : List LogEntry
deriving DecidableEq

/-- State after `AudioPipeline::start` with the given queue: running,
empty buffer, nothing current. -/
def pipeline_init (max_samples : Nat) (queue : List Track) : PState :=
  { max_samples := max_samples, track_queue := queue, samples := [],
    current_track := none, running := true, current_state := none,
    events := [], drained := [], log := [] }

/-- The `TrackState` built after a successful decode
(`audio_pipeline.rs:321-330`). -/
def track_state_of (t : Track) : TrackState :=
  { track_id := t.track_id, title := t.title, artist := t.artist,
    duration_secs := (t.samples.length : ℚ) /
      ((OUTPUT_SAMPLE_RATE : ℚ) * (OUTPUT_CHANNELS : ℚ)),
    position_secs := 0 }

/-- Add `k` to the `sent` count of the last log entry (ghost). -/
def bump_last : List LogEntry → Nat → List LogEntry
  | [], _ => []
  | [e], k => [{ e with sent := e.sent + k }]
  | e :: rest, k => e :: bump_last rest k

/-- Mark the last log entry as cut by a skip (ghost). -/
def set_last_cut : List LogEntry → List LogEntry
  | [] => []
  | [e] => [{ e with cut := true }]
  | e :: rest => e :: set_last_cut rest

/-- One successful load iteration of the producer loop
(`audio_pipeline.rs:283-350`): if the buffer is below half capacity and
no track is current, pop the queue head, append its decoded samples,
make it current and emit `TrackStarted`. Otherwise the iteration changes
nothing. -/
def load_track (s : PState) : PState :=
  if s.current_track = none ∧ s.samples.length < s.max_samples / 2 then
    match s.track_queue with
    | [] => s
    | t :: rest =>
      { s with track_queue := rest,
               samples := s.samples ++ t.samples,
               current_track := some
                 { track_id := t.track_id, title := t.title, artist := t.artist,
                   total_samples := t.samples.length, consumed_samples := 0 },
               current_state := some (track_state_of t),
               events := s.events ++ [.trackStarted (track_state_of t)],
               log := s.log ++ [{ track := t, sent := 0, cut := false }] }
  else s

/-- A load iteration whose fetch/decode fails
(`audio_pipeline.rs:351-357`): the track was already popped; an `Error`
event is emitted and the loop continues. -/
def load_track_failure (s : PState) : PState :=
  if s.current_track = none ∧ s.samples.length < s.max_samples / 2 then
    match s.track_queue with
    | [] => s
    | t :: rest =>
      { s with track_queue := rest,
               events := s.events ++ [.error ("Failed to load " ++ t.title)] }
  else s

/-- The position update inside `read_samples`: only the matching current
track state gets the new position. -/
def update_position (o : Option TrackState) (id : String) (pos : ℚ) : Option TrackState :=
  match o with
  | none => none
  | some ts => if ts.track_id = id then some { ts with position_secs := pos } else some ts

/-- `AudioPipeline::read_samples` with an output slice of length `n`
(`audio_pipeline.rs:372-411`): drain `min (buffer.len) n` samples from
the head of the buffer, advance `consumed_samples`, update the position,
and when the buffered track is exhausted clear it and emit `TrackEnded`. -/
def read_samples (s : PState) (n : Nat) : PState :=
  let available := min s.samples.length n
  let out := s.samples.take available
  let rest := s.samples.drop available
  match s.current_track with
  | none => { s with samples := rest, drained := s.drained ++ out }
  | some bt =>
    let consumed := bt.consumed_samples + available
    let pos : ℚ := (consumed : ℚ) / ((OUTPUT_SAMPLE_RATE : ℚ) * (OUTPUT_CHANNELS : ℚ))
    let cs := update_position s.current_state bt.track_id pos
    if bt.total_samples ≤ consumed then
      { s with samples := rest, drained := s.drained ++ out,
               current_track := none, current_state := cs,
               events := s.events ++ [.trackEnded bt.track_id],
               log := bump_last s.log available }
    else
      { s with samples := rest, drained := s.drained ++ out,
               current_track := some { bt with consumed_samples := consumed },
               current_state := cs,
               log := bump_last s.log available }

/-- The `PipelineCommand::Skip` handler (`audio_pipeline.rs:263-268`):
clear the sample buffer and drop the current `BufferedTrack`; nothing is
sent on the event channel. The ghost log marks the interrupted entry. -/
def pipeline_skip (s : PState) : PState :=
  { s with samples := [], current_track := none,
           log := if s.current_track.isSome then set_last_cut s.log else s.log }

/-- The `PipelineCommand::Stop` handler: stop running, emit `Stopped`. -/
def pipeline_stop (s : PState) : PState :=
  { s with running := false, events := s.events ++ [.stopped] }

/-- The `PipelineCommand::QueueTrack` handler: push at the tail. -/
def queue_track (s : PState) (t : Track) : PState :=
  { s with track_queue := s.track_queue ++ [t] }

/-- Scheduler-visible steps of a pipeline run: producer-loop load
iterations (succeeding or failing), consumer `read_samples` calls with a
buffer of size `n`, and the control commands. -/
inductive PStep where
  | load
  | loadFail
  | read (n : Nat)
  | skip
  | stop
  | queueTrack (t : Track)
deriving DecidableEq

/-- `true` exactly on `queueTrack` steps. -/
def is_queue_step : PStep → Bool
  | .queueTrack _ => true
  | _ => false

/-- Apply one step; once the loop has stopped, nothing further happens. -/
def pipeline_step (s : PState) : PStep → PState :=
  fun st =>
    if s.running then
      match st with
      | .load => load_track s
      | .loadFail => load_track_failure s
      | .read n => read_samples s n
      | .skip => pipeline_skip s
      | .stop => pipeline_stop s
      | .queueTrack t => queue_track s t
    else s

/-- Run a list of steps. -/
def pipeline_run (s : PState) (steps : List PStep) : PState :=
  steps.foldl pipeline_step s

/-- The samples of a log entry that `read_samples` has handed out. -/
def sent_slice (e : LogEntry) : List Int := e.track.samples.take e.sent

/-- Log entries whose track is no longer current (retired ones). -/
def closed_log (s : PState) : List LogEntry :=
  if s.current_track.isSome then s.log.dropLast else s.log

/-! ### Embedding control state machine (api/library.rs) -/

/-- `EmbeddingControlState` (defined in `api/stations.rs`). -/
inductive EmbeddingControlState where
  | idle
  | running
  | paused
  | stopping
deriving DecidableEq

/-- Outcome of one control handler: whether it returned a `Conflict`
error, and the control state afterwards. -/
structure ControlResponse where
  conflict : Bool
  state : EmbeddingControlState
deriving DecidableEq

/-- `pause_embeddings` (`library.rs:1024-1043`): conflict unless Running. -/
def pause_embeddings (c : EmbeddingControlState) : ControlResponse :=
  if c ≠ .running then { conflict := true, state := c }
  else { conflict := false, state := .paused }

/-- `resume_embeddings` (`library.rs:1047-1066`): conflict unless Paused. -/
def resume_embeddings (c : EmbeddingControlState) : ControlResponse :=
  if c ≠ .paused then { conflict := true, state := c }
  else { conflict := false, state := .running }

/-- `stop_embeddings` (`library.rs:1070-1089`): conflict only from Idle;
from Running, Paused and also from Stopping it succeeds and sets
Stopping. -/
def stop_embeddings (c : EmbeddingControlState) : ControlResponse :=
  if c = .idle then { conflict := true, state := c }
  else { conflict := false, state := .stopping }

/-- Outcome of the start path: whether the "already running" error event
was sent, the control state afterwards, and whether a batch worker was
spawned. -/
structure StreamStartOutcome where
  sent_already_running_error : Bool
  state : EmbeddingControlState
  spawned_worker : Bool
deriving DecidableEq

/-- The start path of `index_embeddings_stream` (`library.rs:760-784`),
with a valid token and the encoder and library path configured: the
Running/Paused check only sends an error event on the progress channel —
the `// Return early via the stream below` comment has no corresponding
`return` — after which control flow falls through, unconditionally sets
the state to Running and spawns another batch worker. -/
def index_embeddings_stream_start (c : EmbeddingControlState) : StreamStartOutcome :=
  { sent_already_running_error :=
      match c with
      | .running => true
      | .paused => true
      | _ => false,
    state := .running,
    spawned_worker := true }

/-- The worker's terminal reset (`library.rs:992-994`): whatever the
state was, batch completion (or drain after stop) sets it to Idle. -/
def batch_worker_finish (_ : EmbeddingControlState) : EmbeddingControlState := .idle

/-! ### Embedding normalization (services/audio_encoder.rs) -/

/-- Euclidean norm of a stored vector (`f32` arithmetic modelled over ℝ). -/
noncomputable def l2_norm (v : List ℝ) : ℝ :=
  Real.sqrt ((v.map fun x => x * x).sum)

/-- `AudioEncoder::normalize_embedding` (`audio_encoder.rs:560-567`):
divide by the norm, unless the norm is ≤ 1e-10, in which case the vector
is returned unchanged. -/
noncomputable def normalize_embedding (v : List ℝ) : List ℝ :=
  if l2_norm v > 1e-10 then v.map fun x => x / l2_norm v else v

/-- The vector `process_track` persists when `encode_file` succeeds with
raw model output `raw` (`audio_encoder.rs:586-619`). -/
noncomputable def stored_embedding (raw : List ℝ) : List ℝ :=
  normalize_embedding raw

/-! ### Hybrid curator gap filling (services/hybrid_curator.rs) -/

/-- The interleaving loop of `fill_gaps_between_seeds`
(`hybrid_curator.rs:287-304`): for the `i`-th seed, push the seed and
then up to `gap_size` tracks from the similarity iterator, where the
first `remainder` gaps get one extra track. -/
def fill_gaps_go (tracks_per_gap remainder : Nat) :
    Nat → List String → List String → List String
  | _, [], _ => []
  | i, seed :: rest, similar =>
    let gap_size := if i < remainder then tracks_per_gap + 1 else tracks_per_gap
    seed :: (similar.take gap_size ++
      fill_gaps_go tracks_per_gap remainder (i + 1) rest (similar.drop gap_size))

/-- The pure playlist construction of
`HybridCurator::fill_gaps_between_seeds` (`hybrid_curator.rs:279-313`),
given the seed ids, the requested total size, and the tracks returned by
the centroid similarity search. `tracks_to_fill` is a saturating
subtraction; the source divides by `num_gaps = seeds.len()` (panicking
on an empty seed list, which callers exclude). -/
def fill_gaps_between_seeds (seeds : List String) (total_size : Nat)
    (similar_tracks : List String) : List String :=
  let tracks_to_fill := total_size - seeds.length
  let num_gaps := seeds.length
  let tracks_per_gap := tracks_to_fill / num_gaps
  let remainder := tracks_to_fill % num_gaps
  fill_gaps_go tracks_per_gap remainder 0 seeds similar_tracks

/-- Size of gap `i` (after the `i`-th seed). -/
def gap_size_at (tracks_per_gap remainder i : Nat) : Nat :=
  if i < remainder then tracks_per_gap + 1 else tracks_per_gap

/-- Total size of gaps `i, i+1, …, i+k-1`. -/
def gap_sum (tracks_per_gap remainder i : Nat) : Nat → Nat
  | 0 => 0
  | k + 1 => gap_size_at tracks_per_gap remainder i +
      gap_sum tracks_per_gap remainder (i + 1) k

/-! ### LLM JSON extraction (services/seed_selector.rs) -/

/-- Whitespace for `str::trim` (ASCII fragment, which covers the claims'
inputs). -/
def is_rust_ws (c : Char) : Bool := c.isWhitespace

/-- `str::trim`. -/
def trim_chars (l : List Char) : List Char :=
  ((l.dropWhile is_rust_ws).reverse.dropWhile is_rust_ws).reverse

/-- `str::find(char)`: index of the first occurrence. -/
def find_char_idx : List Char → Char → Option Nat
  | [], _ => none
  | h :: t, c => if h = c then some 0 else (find_char_idx t c).map (· + 1)

/-- `str::find(&str)`: index of the first occurrence of a substring. -/
def find_substr_idx : List Char → List Char → Option Nat
  | [], needle => if needle.isEmpty then some 0 else none
  | h :: t, needle =>
    if needle.isPrefixOf (h :: t) then some 0
    else (find_substr_idx t needle).map (· + 1)

/-- The brace-matching loop of `SeedSelector::find_json_object`
(`seed_selector.rs:660-684`): walking the characters with depth,
in-string and escape flags, return the index at which the depth returns
to zero. `depth` is a machine integer in the source, hence `Int`. -/
def find_object_end : List Char → Int → Bool → Bool → Option Nat
  | [], _, _, _ => none
  | c :: rest, depth, in_string, escape_next =>
    if escape_next then (find_object_end rest depth in_string false).map (· + 1)
    else if c = '\\' ∧ in_string then
      (find_object_end rest depth in_string true).map (· + 1)
    else if c = '"' then (find_object_end rest depth (!in_string) false).map (· + 1)
    else if c = '\x7b' ∧ ¬in_string then
      (find_object_end rest (depth + 1) in_string false).map (· + 1)
    else if c = '\x7d' ∧ ¬in_string then
      (if depth - 1 = 0 then some 0
       else (find_object_end rest (depth - 1) in_string false).map (· + 1))
    else (find_object_end rest depth in_string false).map (· + 1)

/-- `SeedSelector::find_json_object` over characters: find the first
`'\x7b'`, then brace-match; on success return the characters up to and
including the matching `'\x7d'`. -/
def find_json_object_chars (text : List Char) : Option (List Char) :=
  match find_char_idx text '\x7b' with
  | none => none
  | some start =>
    let chars := text.drop start
    match find_object_end chars 0 false false with
    | none => none
    | some i => some (chars.take (i + 1))

/-- The first fence path of `extract_first_json_object`: a ```` ```json ````
fence, its closing ```` ``` ````, and a brace-match inside. -/
def fenced_json_result (t : List Char) : Option (List Char) :=
  match find_substr_idx t "```json".data with
  | none => none
  | some start =>
    let after_fence := t.drop (start + 7)
    match find_substr_idx after_fence "```".data with
    | none => none
    | some e => find_json_object_chars (trim_chars (after_fence.take e))

/-- The second fence path: a plain ```` ``` ```` fence, skipping a language
identifier up to the first newline. -/
def plain_fence_result (t : List Char) : Option (List Char) :=
  match find_substr_idx t "```".data with
  | none => none
  | some start =>
    let after_fence := t.drop (start + 3)
    let content_start :=
      match find_char_idx after_fence '\n' with
      | some i => i + 1
      | none => 0
    let after_lang := after_fence.drop content_start
    match find_substr_idx after_lang "```".data with
    | none => none
    | some e => find_json_object_chars (trim_chars (after_lang.take e))

/-- `SeedSelector::extract_first_json_object` (`seed_selector.rs:622-653`)
over characters: trim, try the ```` ```json ```` fence, then the plain
fence, then a raw brace-match of the whole text. -/
def extract_chars (text : List Char) : Option (List Char) :=
  let t := trim_chars text
  match fenced_json_result t with
  | some obj => some obj
  | none =>
    match plain_fence_result t with
    | some obj => some obj
    | none => find_json_object_chars t

/-- `SeedSelector::extract_first_json_object`. -/
def extract_first_json_object (text : String) : Option String :=
  (extract_chars text.data).map fun l => ⟨l⟩

/-- JSON whitespace (RFC 8259). -/
def is_json_ws (c : Char) : Bool := c = ' ' || c = '\n' || c = '\t' || c = '\r'

/-- Skip JSON whitespace. -/
def skip_json_ws (l : List Char) : List Char := l.dropWhile is_json_ws

/-- Consume the rest of a JSON string after the opening quote; any
escaped character is accepted. -/
def eat_string_rest : List Char → Option (List Char)
  | [] => none
  | '"' :: rest => some rest
  | '\\' :: [] => none
  | '\\' :: _ :: rest => eat_string_rest rest
  | _ :: rest => eat_string_rest rest

/-- Consume a JSON number (sign, digits, optional fraction and
exponent). -/
def eat_number (l : List Char) : Option (List Char) :=
  let l1 := match l with
    | '-' :: r => r
    | _ => l
  match l1 with
  | [] => none
  | c :: _ =>
    if c.isDigit then
      let r1 := l1.dropWhile Char.isDigit
      let r2 := match r1 with
        | '.' :: d :: r => if d.isDigit then (d :: r).dropWhile Char.isDigit else r1
        | _ => r1
      let r3 := match r2 with
        | e :: s :: r =>
          if e = 'e' ∨ e = 'E' then
            if s.isDigit then (s :: r).dropWhile Char.isDigit
            else if s = '+' ∨ s = '-' then
              match r with
              | d :: r4 => if d.isDigit then (d :: r4).dropWhile Char.isDigit else r2
              | [] => r2
            else r2
          else r2
        | _ => r2
      some r3
    else none

mutual

/-- Modelled from the spec: the syntactic JSON grammar accepted by the
external `serde_json` parser (`serde_json::from_str`, not part of src/);
consumes one JSON value, returning the remaining characters. Fuel-based
recursion. -/
def parse_json_value : Nat → List Char → Option (List Char)
  | 0, _ => none
  | fuel + 1, l =>
    match skip_json_ws l with
    | [] => none
    | '\x7b' :: rest =>
      (match skip_json_ws rest with
       | '\x7d' :: r2 => some r2
       | _ => parse_json_members fuel rest)
    | '[' :: rest =>
      (match skip_json_ws rest with
       | ']' :: r2 => some r2
       | _ => parse_json_elements fuel rest)
    | '"' :: rest => eat_string_rest rest
    | 't' :: 'r' :: 'u' :: 'e' :: rest => some rest
    | 'f' :: 'a' :: 'l' :: 's' :: 'e' :: rest => some rest
    | 'n' :: 'u' :: 'l' :: 'l' :: rest => some rest
    | l2 => eat_number l2

/-- Members of a JSON object after the opening brace. -/
def parse_json_members : Nat → List Char → Option (List Char)
  | 0, _ => none
  | fuel + 1, l =>
    match skip_json_ws l with
    | '"' :: rest =>
      (match eat_string_rest rest with
       | none => none
       | some r2 =>
         match skip_json_ws r2 with
         | ':' :: r3 =>
           (match parse_json_value fuel r3 with
            | none => none
            | some r4 =>
              match skip_json_ws r4 with
              | ',' :: r5 => parse_json_members fuel r5
              | '\x7d' :: r5 => some r5
              | _ => none)
         | _ => none)
    | _ => none

/-- Elements of a JSON array after the opening bracket. -/
def parse_json_elements : Nat → List Char → Option (List Char)
  | 0, _ => none
  | fuel + 1, l =>
    match parse_json_value fuel l with
    | none => none
    | some r =>
      match skip_json_ws r with
      | ',' :: r2 => parse_json_elements fuel r2
      | ']' :: r2 => some r2
      | _ => none

end

/-- Modelled from the spec: "`o` parses as a syntactically valid JSON
object" — the whole string is one JSON object with only whitespace
around it. -/
def is_valid_json_object (s : String) : Bool :=
  match skip_json_ws s.data with
  | '\x7b' :: _ =>
    (match parse_json_value (s.data.length + 1) s.data with
     | some rest => (skip_json_ws rest).isEmpty
     | none => false)
  | _ => false

/-! ### Invariant predicates used by the theorems -/

/-- The broadcaster window invariant of claim C2: retained sequence
numbers are exactly the contiguous range starting at `media_sequence`
(hence strictly increasing, with the oldest retained segment carrying
`media_sequence`), the next sequence to be assigned is `media_sequence`
plus the window length, and the window is bounded by
`playlist_length + 2`. -/
def BroadcasterInv (st : BroadcasterState) : Prop :=
  st.segments.map HlsSegment.sequence = List.range' st.media_sequence st.segments.length
  ∧ st.sequence = st.media_sequence + st.segments.length
  ∧ st.segments.length ≤ st.playlist_length + 2

/-- Recognizes an `#EXTINF` line. -/
def is_extinf_line (l : String) : Bool := l.data.take 8 == "#EXTINF:".data

/-- The pipeline invariant behind claim C1, relating the observable
drained-sample trace to the ghost log: the log lists the loaded prefix of
the initial queue in order; the drained samples are exactly the
concatenation of the first `sent` samples of each loaded track; `sent`
never exceeds a track's sample count; every retired entry not cut by a
skip was drained completely; and the sample buffer holds exactly the
undrained remainder of the current track (or is empty). -/
def PipelineInv (ts : List Track) (s : PState) : Prop :=
  s.log.map LogEntry.track ++ s.track_queue = ts
  ∧ s.drained = (s.log.map sent_slice).flatten
  ∧ (∀ e ∈ s.log, e.sent ≤ e.track.samples.length)
  ∧ (∀ e ∈ closed_log s, e.cut = false → e.sent = e.track.samples.length)
  ∧ (s.current_track = none → s.samples = [])
  ∧ (∀ bt : BufferedTrack, s.current_track = some bt → ∃ l₀ e, s.log = l₀ ++ [e]
      ∧ bt.track_id = e.track.track_id
      ∧ bt.total_samples = e.track.samples.length
      ∧ bt.consumed_samples = e.sent
      ∧ e.cut = false
      ∧ s.samples = e.track.samples.drop e.sent)

/-- No log entry was cut by a skip. -/
def cut_free (s : PState) : Prop := ∀ e ∈ s.log, e.cut = false

/-! ## Theorems -/

/-! ### C2: broadcaster window invariant -/

theorem evict_old_spec (pl : Nat) (segs : List HlsSegment) : ∀ (ms : Nat),
    segs.map HlsSegment.sequence = List.range' ms segs.length →
    (evict_old pl segs ms).1.map HlsSegment.sequence =
        List.range' (evict_old pl segs ms).2 (evict_old pl segs ms).1.length
    ∧ (evict_old pl segs ms).2 + (evict_old pl segs ms).1.length = ms + segs.length
    ∧ (evict_old pl segs ms).1.length ≤ pl + 2 := by
  induction segs with
  | nil => intro ms _; simp [evict_old]
  | cons s rest ih =>
    intro ms h
    rw [List.length_cons, List.range'_succ, List.map_cons] at h
    have h1 : s.sequence = ms := (List.cons.inj h).1
    have h2 : rest.map HlsSegment.sequence = List.range' (ms + 1) rest.length :=
      (List.cons.inj h).2
    rw [evict_old]
    by_cases hlen : (s :: rest).length > pl + 2
    · rw [if_pos hlen]
      obtain ⟨g1, g2, g3⟩ := ih (ms + 1) h2
      refine ⟨g1, ?_, g3⟩
      rw [List.length_cons]
      omega
    · rw [if_neg hlen]
      rw [List.length_cons] at hlen
      refine ⟨?_, rfl, ?_⟩
      · show (s :: rest).map HlsSegment.sequence = List.range' ms (s :: rest).length
        rw [List.length_cons, List.range'_succ, List.map_cons, h1, h2]
      · show (s :: rest).length ≤ pl + 2
        rw [List.length_cons]
        omega

theorem produce_segment_inv (cfg : AudioBroadcasterConfig) (d : List Nat)
    (st : BroadcasterState) (h : BroadcasterInv st) :
    BroadcasterInv (produce_segment cfg d st) := by
  obtain ⟨h1, h2, h3⟩ := h
  unfold produce_segment
  by_cases hd : d = []
  · rw [if_pos hd]; exact ⟨h1, h2, h3⟩
  · rw [if_neg hd]
    have hmap : (st.segments ++ [new_segment cfg d st]).map HlsSegment.sequence =
        List.range' st.media_sequence (st.segments ++ [new_segment cfg d st]).length := by
      rw [List.map_append, List.length_append]
      show _ ++ [st.sequence] = _
      rw [h1, h2]
      show List.range' st.media_sequence st.segments.length ++
          [st.media_sequence + st.segments.length] =
        List.range' st.media_sequence (st.segments.length + 1)
      rw [List.range'_concat]
      simp
    obtain ⟨g1, g2, g3⟩ := evict_old_spec st.playlist_length
      (st.segments ++ [new_segment cfg d st]) st.media_sequence hmap
    rw [List.length_append] at g2
    simp only [List.length_cons, List.length_nil] at g2
    refine ⟨g1, ?_, g3⟩
    show st.sequence + 1 =
      (evict_old st.playlist_length (st.segments ++ [new_segment cfg d st])
        st.media_sequence).2 +
      (evict_old st.playlist_length (st.segments ++ [new_segment cfg d st])
        st.media_sequence).1.length
    omega

theorem broadcaster_step_inv (cfg : AudioBroadcasterConfig) (st : BroadcasterState)
    (op : BOp) (h : BroadcasterInv st) : BroadcasterInv (broadcaster_step cfg st op) := by
  cases op with
  | produce d => exact produce_segment_inv cfg d st h
  | skip =>
    obtain ⟨_, h2, _⟩ := h
    refine ⟨by simp [broadcaster_step, broadcaster_skip_state], ?_, ?_⟩
    · show st.sequence = st.media_sequence + st.segments.length + ([] : List HlsSegment).length
      simp [h2]
    · show ([] : List HlsSegment).length ≤ st.playlist_length + 2
      simp
  | trackStarted id => exact h
  | render => exact h

theorem broadcaster_run_inv (cfg : AudioBroadcasterConfig) (ops : List BOp) :
    ∀ (st : BroadcasterState), BroadcasterInv st →
      BroadcasterInv (broadcaster_run cfg ops st) := by
  induction ops with
  | nil => intro st h; exact h
  | cons op rest ih =>
    intro st h
    exact ih (broadcaster_step cfg st op) (broadcaster_step_inv cfg st op h)

/-- C2: in every `BroadcasterState` reachable from a fresh broadcaster by
any interleaving of segment appends (with their evictions) and `skip()`
calls (and renders and track-change updates), the retained segments carry
exactly the contiguous, strictly increasing sequence range starting at
`media_sequence` (so the oldest retained segment's sequence equals
`media_sequence`, and `media_sequence` equals the next sequence when the
window is empty), the next sequence to be assigned equals
`media_sequence` plus the number of retained segments, and the window
holds at most `playlist_length + 2` segments. -/
theorem c2_broadcaster_window_invariant (cfg : AudioBroadcasterConfig) (ops : List BOp) :
    (broadcaster_run cfg ops (broadcaster_new cfg)).segments.map HlsSegment.sequence =
      List.range' (broadcaster_run cfg ops (broadcaster_new cfg)).media_sequence
        (broadcaster_run cfg ops (broadcaster_new cfg)).segments.length
    ∧ (broadcaster_run cfg ops (broadcaster_new cfg)).sequence =
        (broadcaster_run cfg ops (broadcaster_new cfg)).media_sequence +
          (broadcaster_run cfg ops (broadcaster_new cfg)).segments.length
    ∧ (broadcaster_run cfg ops (broadcaster_new cfg)).segments.length ≤
        (broadcaster_run cfg ops (broadcaster_new cfg)).playlist_length + 2 :=
  broadcaster_run_inv cfg ops (broadcaster_new cfg)
    ⟨by simp [broadcaster_new], by simp [broadcaster_new], by simp [broadcaster_new]⟩

/-! ### C10: start on a running broadcaster -/

/-- C10: calling `AudioBroadcaster::start()` while the broadcaster is
already running returns `Ok` immediately, spawns neither a broadcast
loop nor an encoder thread, and leaves the handle (its shared
`BroadcasterState` and `start_time`) unchanged. -/
theorem c10_start_noop_when_running (b : BroadcasterHandle) (now : Nat)
    (h : b.running = true) :
    audio_broadcaster_start b now =
      { handle := b, returned_ok := true,
        spawned_encoder_thread := false, spawned_broadcast_loop := false } := by
  simp [audio_broadcaster_start, h]

theorem c10_start_noop_witness :
    ({ state := broadcaster_new default_broadcaster_config, running := true,
       start_time := 7 } : BroadcasterHandle).running = true
    ∧ audio_broadcaster_start
        { state := broadcaster_new default_broadcaster_config, running := true,
          start_time := 7 } 99 =
      { handle := { state := broadcaster_new default_broadcaster_config,
                    running := true, start_time := 7 },
        returned_ok := true, spawned_encoder_thread := false,
        spawned_broadcast_loop := false } :=
  ⟨rfl, c10_start_noop_when_running _ 99 rfl⟩

/-! ### C6: embedding control state machine -/

/-- C6: evaluation of the embedding-control handlers at the inputs where
the code deviates from the specified state machine. Starting the
stream-indexing path while the state is `Paused` sends the
"already running" conflict event but still moves the state to `Running`
and spawns a second batch worker (the `// Return early` comment has no
`return`); starting while `Running` likewise spawns again; starting
while `Stopping` raises no conflict at all and also spawns; and `stop`
invoked in state `Stopping` succeeds instead of returning a conflict.
The `pause`/`resume` handlers do follow the state machine. -/
theorem c6_start_path_code_bug :
    index_embeddings_stream_start .paused =
      { sent_already_running_error := true, state := .running, spawned_worker := true }
    ∧ index_embeddings_stream_start .running =
      { sent_already_running_error := true, state := .running, spawned_worker := true }
    ∧ index_embeddings_stream_start .stopping =
      { sent_already_running_error := false, state := .running, spawned_worker := true }
    ∧ (stop_embeddings .stopping).conflict = false
    ∧ pause_embeddings .running = { conflict := false, state := .paused }
    ∧ pause_embeddings .idle = { conflict := true, state := .idle }
    ∧ pause_embeddings .paused = { conflict := true, state := .paused }
    ∧ pause_embeddings .stopping = { conflict := true, state := .stopping }
    ∧ resume_embeddings .paused = { conflict := false, state := .running }
    ∧ resume_embeddings .idle = { conflict := true, state := .idle }
    ∧ resume_embeddings .running = { conflict := true, state := .running }
    ∧ resume_embeddings .stopping = { conflict := true, state := .stopping }
    ∧ stop_embeddings .running = { conflict := false, state := .stopping }
    ∧ stop_embeddings .paused = { conflict := false, state := .stopping }
    ∧ stop_embeddings .idle = { conflict := true, state := .idle }
    ∧ batch_worker_finish .running = .idle
    ∧ batch_worker_finish .stopping = .idle := by
  decide

/-! ### C8: hybrid curation gap filling -/

theorem gap_sum_closed (tracks_per_gap remainder : Nat) : ∀ (k i : Nat),
    gap_sum tracks_per_gap remainder i k =
      k * tracks_per_gap + (min (i + k) remainder - min i remainder) := by
  intro k
  induction k with
  | zero => intro i; simp [gap_sum]
  | succ k ih =>
    intro i
    rw [gap_sum, ih (i + 1), Nat.succ_mul]
    unfold gap_size_at
    split <;> omega

theorem fill_gaps_go_length (tracks_per_gap remainder : Nat) (ss : List String) :
    ∀ (i : Nat) (sim : List String),
      gap_sum tracks_per_gap remainder i ss.length ≤ sim.length →
      (fill_gaps_go tracks_per_gap remainder i ss sim).length =
        ss.length + gap_sum tracks_per_gap remainder i ss.length := by
  induction ss with
  | nil => intro i sim _; simp [fill_gaps_go, gap_sum]
  | cons s rest ih =>
    intro i sim h
    rw [List.length_cons, gap_sum] at h ⊢
    rw [fill_gaps_go]
    have hgap : (if i < remainder then tracks_per_gap + 1 else tracks_per_gap) =
        gap_size_at tracks_per_gap remainder i := rfl
    rw [hgap]
    have hle : gap_size_at tracks_per_gap remainder i ≤ sim.length := by omega
    have hrec := ih (i + 1) (sim.drop (gap_size_at tracks_per_gap remainder i)) (by
      rw [List.length_drop]; omega)
    rw [List.length_cons, List.length_append, hrec, List.length_take]
    omega

theorem fill_gaps_go_get (tracks_per_gap remainder : Nat) (ss : List String) :
    ∀ (i k : Nat) (sim : List String),
      k < ss.length →
      gap_sum tracks_per_gap remainder i ss.length ≤ sim.length →
      (fill_gaps_go tracks_per_gap remainder i ss sim)[k +
          gap_sum tracks_per_gap remainder i k]? = ss[k]? := by
  induction ss with
  | nil => intro i k sim hk _; simp at hk
  | cons s rest ih =>
    intro i k sim hk h
    rw [List.length_cons] at hk
    rw [List.length_cons, gap_sum] at h
    rw [fill_gaps_go]
    have hgap : (if i < remainder then tracks_per_gap + 1 else tracks_per_gap) =
        gap_size_at tracks_per_gap remainder i := rfl
    rw [hgap]
    cases k with
    | zero => simp [gap_sum]
    | succ k =>
      have hidx : k + 1 + gap_sum tracks_per_gap remainder i (k + 1) =
          (gap_size_at tracks_per_gap remainder i +
            (k + gap_sum tracks_per_gap remainder (i + 1) k)) + 1 := by
        rw [gap_sum]; omega
      rw [hidx, List.getElem?_cons_succ, List.getElem?_cons_succ]
      have hlen : (sim.take (gap_size_at tracks_per_gap remainder i)).length =
          gap_size_at tracks_per_gap remainder i := by
        rw [List.length_take]; omega
      rw [List.getElem?_append_right (by rw [hlen]; omega)]
      rw [hlen]
      have harith : gap_size_at tracks_per_gap remainder i +
          (k + gap_sum tracks_per_gap remainder (i + 1) k) -
          gap_size_at tracks_per_gap remainder i =
          k + gap_sum tracks_per_gap remainder (i + 1) k := by omega
      rw [harith]
      exact ih (i + 1) k (sim.drop (gap_size_at tracks_per_gap remainder i))
        (by omega) (by rw [List.length_drop]; omega)

/-- C8 as stated is false: with seeds `["s0","s1","s2"]`, `limit = 7` and
a similarity result of exactly `tracks_to_fill = 4` tracks, the built
playlist is `[s0,a,b,s1,c,s2,d]` — the extra tracks go to the FIRST gaps
— so seed 1 sits at index 3, not at the claimed `⌊1·7/3⌋ = 2`, where a
filler track sits instead. -/
theorem c8_seed_position_counterexample :
    fill_gaps_between_seeds ["s0", "s1", "s2"] 7 ["a", "b", "c", "d"] =
      ["s0", "a", "b", "s1", "c", "s2", "d"]
    ∧ (fill_gaps_between_seeds ["s0", "s1", "s2"] 7 ["a", "b", "c", "d"])[1 * 7 / 3]? =
        some "b"
    ∧ (fill_gaps_between_seeds ["s0", "s1", "s2"] 7 ["a", "b", "c", "d"])[1 * 7 / 3]? ≠
        some "s1" := by
  decide

/-- C8 (amended): with at least one seed, `|seeds| ≤ limit`, and a
similarity search returning exactly `tracks_to_fill = limit − |seeds|`
tracks, the playlist places each seed followed by
`gap_size = tracks_to_fill / |seeds|` similar tracks with the first
`tracks_to_fill % |seeds|` gaps receiving one extra; hence it begins with
a seed, has length `limit`, and seed `k` appears at index
`k + k·(tracks_to_fill / |seeds|) + min k (tracks_to_fill % |seeds|)`
(not at `⌊k·limit/|seeds|⌋`). -/
theorem c8_fill_gaps_amended (seeds similar : List String) (limit : Nat)
    (h1 : seeds ≠ []) (h2 : seeds.length ≤ limit)
    (h3 : similar.length = limit - seeds.length) :
    (fill_gaps_between_seeds seeds limit similar).length = limit
    ∧ (fill_gaps_between_seeds seeds limit similar).head? = seeds.head?
    ∧ ∀ k, k < seeds.length →
        (fill_gaps_between_seeds seeds limit similar)[k +
            k * ((limit - seeds.length) / seeds.length) +
            min k ((limit - seeds.length) % seeds.length)]? = seeds[k]? := by
  have hs : 0 < seeds.length := List.length_pos.mpr h1
  have hrem : (limit - seeds.length) % seeds.length < seeds.length := Nat.mod_lt _ hs
  have hdm := Nat.div_add_mod (limit - seeds.length) seeds.length
  have hsum : gap_sum ((limit - seeds.length) / seeds.length)
      ((limit - seeds.length) % seeds.length) 0 seeds.length = limit - seeds.length := by
    rw [gap_sum_closed]
    omega
  refine ⟨?_, ?_, ?_⟩
  · unfold fill_gaps_between_seeds
    rw [fill_gaps_go_length _ _ _ 0 similar (by rw [hsum, h3])]
    rw [hsum]
    omega
  · unfold fill_gaps_between_seeds
    cases seeds with
    | nil => exact absurd rfl h1
    | cons s rest => rw [fill_gaps_go]; rfl
  · intro k hk
    unfold fill_gaps_between_seeds
    have hg := fill_gaps_go_get ((limit - seeds.length) / seeds.length)
      ((limit - seeds.length) % seeds.length) seeds 0 k similar hk
      (by rw [hsum, h3])
    rw [gap_sum_closed] at hg
    have harith : k + k * ((limit - seeds.length) / seeds.length) +
        min k ((limit - seeds.length) % seeds.length) =
        k + (k * ((limit - seeds.length) / seeds.length) +
          (min (0 + k) ((limit - seeds.length) % seeds.length) -
            min 0 ((limit - seeds.length) % seeds.length))) := by
      omega
    rw [harith]
    exact hg

/-! ### Playlist line lemmas (for C3 and C5) -/

theorem string_ne_of_take_ne (s t : String) (n : Nat)
    (h : s.data.take n ≠ t.data.take n) : s ≠ t :=
  fun he => h (by rw [he])

theorem extinf_line_take5 (d : ℚ) : (extinf_line d).data.take 5 = "#EXTI".data := by
  unfold extinf_line
  rw [String.data_append, String.data_append, List.append_assoc,
    List.take_append_of_le_length (by decide)]
  decide

theorem extinf_line_take8 (d : ℚ) : (extinf_line d).data.take 8 = "#EXTINF:".data := by
  unfold extinf_line
  rw [String.data_append, String.data_append, List.append_assoc,
    List.take_append_of_le_length (by decide)]
  decide

theorem uri_line_take1 (n : Nat) : (segment_uri_line n).data.take 1 = "s".data := by
  unfold segment_uri_line
  rw [String.data_append, String.data_append, List.append_assoc,
    List.take_append_of_le_length (by decide)]
  decide

theorem uri_line_take8 (n : Nat) : (segment_uri_line n).data.take 8 = "segment/".data := by
  unfold segment_uri_line
  rw [String.data_append, String.data_append, List.append_assoc,
    List.take_append_of_le_length (by decide)]
  decide

theorem extinf_ne_disc (d : ℚ) : extinf_line d ≠ disc_line :=
  string_ne_of_take_ne _ _ 5 (by rw [extinf_line_take5]; decide)

theorem uri_ne_disc (n : Nat) : segment_uri_line n ≠ disc_line :=
  string_ne_of_take_ne _ _ 1 (by rw [uri_line_take1]; decide)

theorem td_ne_disc (t : String) : "#EXT-X-TARGETDURATION:" ++ t ≠ disc_line :=
  string_ne_of_take_ne _ _ 8 (by
    rw [String.data_append, List.take_append_of_le_length (by decide)]; decide)

theorem ms_ne_disc (t : String) : "#EXT-X-MEDIA-SEQUENCE:" ++ t ≠ disc_line :=
  string_ne_of_take_ne _ _ 8 (by
    rw [String.data_append, List.take_append_of_le_length (by decide)]; decide)

theorem is_extinf_extinf (d : ℚ) : is_extinf_line (extinf_line d) = true := by
  unfold is_extinf_line
  rw [extinf_line_take8]
  decide

theorem is_extinf_uri (n : Nat) : is_extinf_line (segment_uri_line n) = false := by
  unfold is_extinf_line
  rw [uri_line_take8]
  decide

theorem is_extinf_td (t : String) :
    is_extinf_line ("#EXT-X-TARGETDURATION:" ++ t) = false := by
  unfold is_extinf_line
  rw [String.data_append, List.take_append_of_le_length (by decide)]
  decide

theorem is_extinf_ms (t : String) :
    is_extinf_line ("#EXT-X-MEDIA-SEQUENCE:" ++ t) = false := by
  unfold is_extinf_line
  rw [String.data_append, List.take_append_of_le_length (by decide)]
  decide

theorem count_cons_ne (a b : String) (l : List String) (h : ¬b = a) :
    (b :: l).count a = l.count a := by
  rw [List.count_cons, if_neg (by simpa using h), Nat.add_zero]

theorem count_disc_header (cfg : AudioBroadcasterConfig) (st : BroadcasterState) :
    (header_lines cfg st).count disc_line = 0 := by
  unfold header_lines
  rw [count_cons_ne _ _ _ (by decide), count_cons_ne _ _ _ (by decide),
    count_cons_ne _ _ _ (td_ne_disc _),
    count_cons_ne _ _ _ (ms_ne_disc _), List.count_nil]

theorem count_disc_flatten (segs : List HlsSegment) :
    ((segs.map seg_lines).flatten).count disc_line = 0 := by
  induction segs with
  | nil => simp
  | cons s rest ih =>
    rw [List.map_cons, List.flatten_cons]
    show List.count disc_line
      ([extinf_line s.duration, segment_uri_line s.sequence] ++
        (rest.map seg_lines).flatten) = 0
    rw [List.cons_append, List.cons_append, List.nil_append,
      count_cons_ne _ _ _ (extinf_ne_disc _),
      count_cons_ne _ _ _ (uri_ne_disc _), ih]

theorem count_disc_body_false (segs : List HlsSegment) :
    (playlist_body false segs).count disc_line = 0 := by
  cases segs with
  | nil => simp [playlist_body]
  | cons s rest =>
    rw [playlist_body]
    simp only [Bool.false_eq_true, if_false, List.nil_append]
    exact count_disc_flatten (s :: rest)

theorem count_disc_body_true (s : HlsSegment) (rest : List HlsSegment) :
    (playlist_body true (s :: rest)).count disc_line = 1 := by
  rw [playlist_body]
  simp only [if_true, List.singleton_append]
  rw [List.count_cons, if_pos (by simp), count_disc_flatten]

theorem count_disc_lines (cfg : AudioBroadcasterConfig) (st : BroadcasterState) :
    (playlist_lines cfg st).count disc_line =
      if st.discontinuity ∧ st.segments ≠ [] then 1 else 0 := by
  unfold playlist_lines
  rw [List.count_append, count_disc_header]
  cases hd : st.discontinuity with
  | false =>
    rw [count_disc_body_false]
    simp
  | true =>
    cases hs : st.segments with
    | nil => simp [playlist_body]
    | cons s rest =>
      rw [count_disc_body_true]
      simp

/-! ### Discontinuity flag propagation -/

theorem produce_discontinuity (cfg : AudioBroadcasterConfig) (d : List Nat)
    (st : BroadcasterState) :
    (produce_segment cfg d st).discontinuity = st.discontinuity := by
  unfold produce_segment
  by_cases hd : d = [] <;> simp [hd]

theorem produce_media_sequence_segments (cfg : AudioBroadcasterConfig) (d : List Nat)
    (st : BroadcasterState) (hd : d ≠ []) :
    (produce_segment cfg d st).segments =
      (evict_old st.playlist_length (st.segments ++ [new_segment cfg d st])
        st.media_sequence).1 := by
  unfold produce_segment
  rw [if_neg hd]

theorem run_disc_true (cfg : AudioBroadcasterConfig) (ops : List BOp)
    (h : ∀ op ∈ ops, op ≠ BOp.skip ∧ op ≠ BOp.render) :
    ∀ st : BroadcasterState, st.discontinuity = true →
      (broadcaster_run cfg ops st).discontinuity = true := by
  induction ops with
  | nil => intro st hst; exact hst
  | cons op rest ih =>
    intro st hst
    have hop := h op (List.mem_cons_self op rest)
    have hrest : ∀ op ∈ rest, op ≠ BOp.skip ∧ op ≠ BOp.render :=
      fun o ho => h o (List.mem_cons_of_mem op ho)
    refine ih hrest (broadcaster_step cfg st op) ?_
    cases op with
    | produce d => rw [broadcaster_step, produce_discontinuity]; exact hst
    | skip => exact absurd rfl hop.1
    | trackStarted id => exact hst
    | render => exact absurd rfl hop.2

theorem run_disc_false (cfg : AudioBroadcasterConfig) (ops : List BOp)
    (h : ∀ op ∈ ops, op ≠ BOp.skip) :
    ∀ st : BroadcasterState, st.discontinuity = false →
      (broadcaster_run cfg ops st).discontinuity = false := by
  induction ops with
  | nil => intro st hst; exact hst
  | cons op rest ih =>
    intro st hst
    have hop := h op (List.mem_cons_self op rest)
    have hrest : ∀ op ∈ rest, op ≠ BOp.skip := fun o ho => h o (List.mem_cons_of_mem op ho)
    refine ih hrest (broadcaster_step cfg st op) ?_
    cases op with
    | produce d => rw [broadcaster_step, produce_discontinuity]; exact hst
    | skip => exact absurd rfl hop
    | trackStarted id => exact hst
    | render => rfl

/-! ### Segment durations in reachable states (for C5) -/

theorem mem_evict_old (pl : Nat) (segs : List HlsSegment) : ∀ (ms : Nat)
    (x : HlsSegment), x ∈ (evict_old pl segs ms).1 → x ∈ segs := by
  induction segs with
  | nil => intro ms x hx; simpa [evict_old] using hx
  | cons s rest ih =>
    intro ms x hx
    rw [evict_old] at hx
    by_cases hlen : (s :: rest).length > pl + 2
    · rw [if_pos hlen] at hx
      exact List.mem_cons_of_mem s (ih (ms + 1) x hx)
    · rw [if_neg hlen] at hx
      exact hx

theorem run_segment_durations (cfg : AudioBroadcasterConfig) (ops : List BOp) :
    ∀ st : BroadcasterState,
      (∀ seg ∈ st.segments, seg.duration = actual_segment_duration cfg) →
      ∀ seg ∈ (broadcaster_run cfg ops st).segments,
        seg.duration = actual_segment_duration cfg := by
  induction ops with
  | nil => intro st h; exact h
  | cons op rest ih =>
    intro st h
    refine ih (broadcaster_step cfg st op) ?_
    cases op with
    | produce d =>
      intro seg hseg
      rw [broadcaster_step] at hseg
      unfold produce_segment at hseg
      by_cases hd : d = []
      · rw [if_pos hd] at hseg; exact h seg hseg
      · rw [if_neg hd] at hseg
        have hmem := mem_evict_old st.playlist_length
          (st.segments ++ [new_segment cfg d st]) st.media_sequence seg hseg
        rcases List.mem_append.mp hmem with hold | hnew
        · exact h seg hold
        · rw [List.mem_singleton.mp hnew]; rfl
    | skip => intro seg hseg; simp [broadcaster_step, broadcaster_skip_state] at hseg
    | trackStarted id => exact h
    | render => exact h

/-! ### C5: duration tags in the rendered playlist -/

/-- C5 as stated is false: with the default configuration
(`segment_duration = 2.0`), the frame-aligned `actual_segment_duration`
is `177408 / 88200 ≈ 2.011` whose ceiling is 3, but `get_playlist` emits
`#EXT-X-TARGETDURATION:2` — it applies `ceil` to the configured
`segment_duration`, not to `actual_segment_duration`. -/
theorem c5_targetduration_counterexample :
    Int.toNat ⌈actual_segment_duration default_broadcaster_config⌉ = 3
    ∧ (playlist_lines default_broadcaster_config
        (produce_segment default_broadcaster_config [55]
          (broadcaster_new default_broadcaster_config)))[2]? =
        some "#EXT-X-TARGETDURATION:2"
    ∧ "#EXT-X-TARGETDURATION:3" ∉ playlist_lines default_broadcaster_config
        (produce_segment default_broadcaster_config [55]
          (broadcaster_new default_broadcaster_config)) := by
  have hsps : samples_per_segment default_broadcaster_config = 177408 := by
    unfold samples_per_segment raw_samples MP3_FRAME_SAMPLES OUTPUT_CHANNELS
      OUTPUT_SAMPLE_RATE default_broadcaster_config
    norm_num
    decide
  have hceil : Int.toNat ⌈actual_segment_duration default_broadcaster_config⌉ = 3 := by
    unfold actual_segment_duration OUTPUT_SAMPLE_RATE OUTPUT_CHANNELS
    rw [hsps]
    have h3 : ⌈((177408 : Nat) : ℚ) / (((44100 : Nat) : ℚ) * ((2 : Nat) : ℚ))⌉ = 3 := by
      rw [Int.ceil_eq_iff]
      constructor
      · push_cast
        norm_num
      · push_cast
        norm_num
    rw [h3]
    rfl
  refine ⟨hceil, by decide, ?_⟩
  have hlines : playlist_lines default_broadcaster_config
      (produce_segment default_broadcaster_config [55]
        (broadcaster_new default_broadcaster_config)) =
      ["#EXTM3U", "#EXT-X-VERSION:3", "#EXT-X-TARGETDURATION:2",
       "#EXT-X-MEDIA-SEQUENCE:0"] ++
      [extinf_line (actual_segment_duration default_broadcaster_config),
       segment_uri_line 0] := by
    rfl
  rw [hlines]
  intro hmem
  rcases List.mem_append.mp hmem with hh | hb
  · simp only [List.mem_cons, List.not_mem_nil] at hh
    rcases hh with h | h | h | h | h <;> revert h <;> decide
  · simp only [List.mem_cons, List.not_mem_nil] at hb
    rcases hb with h | h | h
    · exact absurd h (string_ne_of_take_ne _ _ 5 (by rw [extinf_line_take5]; decide))
    · exact absurd h (by decide)
    · exact h

/-- C5 (amended): in every playlist rendered from a reachable broadcaster
state, the `#EXT-X-TARGETDURATION` header (line 2) carries
`ceil(config.segment_duration)` — the configured duration, not the
frame-aligned `actual_segment_duration` — while every `#EXTINF` line
carries `actual_segment_duration` formatted to 3 decimals. -/
theorem c5_playlist_duration_tags (cfg : AudioBroadcasterConfig) (ops : List BOp) :
    (playlist_lines cfg (broadcaster_run cfg ops (broadcaster_new cfg)))[2]? =
      some ("#EXT-X-TARGETDURATION:" ++ toString (Int.toNat ⌈cfg.segment_duration⌉))
    ∧ ∀ l ∈ playlist_lines cfg (broadcaster_run cfg ops (broadcaster_new cfg)),
        is_extinf_line l = true → l = extinf_line (actual_segment_duration cfg) := by
  constructor
  · unfold playlist_lines header_lines
    rfl
  · intro l hl hext
    have hdur := run_segment_durations cfg ops (broadcaster_new cfg)
      (by intro seg hseg; simp [broadcaster_new] at hseg) 
    unfold playlist_lines at hl
    rcases List.mem_append.mp hl with hh | hb
    · unfold header_lines at hh
      simp only [List.mem_cons, List.not_mem_nil, or_false] at hh
      rcases hh with h | h | h | h
      · rw [h] at hext; exact absurd hext (by decide)
      · rw [h] at hext; exact absurd hext (by decide)
      · rw [h] at hext; exact absurd hext (by rw [is_extinf_td]; decide)
      · rw [h] at hext; exact absurd hext (by rw [is_extinf_ms]; decide)
    · cases hsegs : (broadcaster_run cfg ops (broadcaster_new cfg)).segments with
      | nil => rw [hsegs] at hb; simp [playlist_body] at hb
      | cons s rest =>
        rw [hsegs] at hb
        rw [playlist_body] at hb
        rcases List.mem_append.mp hb with hdisc | hflat
        · have : l = disc_line := by
            cases hdc : (broadcaster_run cfg ops (broadcaster_new cfg)).discontinuity
            · rw [hdc] at hdisc; simp at hdisc
            · rw [hdc] at hdisc; simpa using hdisc
          rw [this] at hext
          exact absurd hext (by decide)
        · obtain ⟨ls, hls, hlmem⟩ := List.mem_flatten.mp hflat
          obtain ⟨seg, hsegmem, hsegeq⟩ := List.mem_map.mp hls
          rw [← hsegeq] at hlmem
          unfold seg_lines at hlmem
          simp only [List.mem_cons, List.not_mem_nil, or_false] at hlmem
          rcases hlmem with h | h
          · rw [h]
            have : seg.duration = actual_segment_duration cfg := by
              refine hdur seg ?_
              rw [hsegs]
              exact hsegmem
            rw [this]
          · rw [h] at hext
            exact absurd hext (by rw [is_extinf_uri]; decide)

theorem c5_playlist_duration_tags_witness :
    (playlist_lines default_broadcaster_config
        (broadcaster_run default_broadcaster_config [BOp.produce [55]]
          (broadcaster_new default_broadcaster_config)))[2]? =
      some ("#EXT-X-TARGETDURATION:" ++
        toString (Int.toNat ⌈default_broadcaster_config.segment_duration⌉))
    ∧ ∀ l ∈ playlist_lines default_broadcaster_config
          (broadcaster_run default_broadcaster_config [BOp.produce [55]]
            (broadcaster_new default_broadcaster_config)),
        is_extinf_line l = true →
          l = extinf_line (actual_segment_duration default_broadcaster_config) :=
  c5_playlist_duration_tags default_broadcaster_config [BOp.produce [55]]

/-! ### C3: skip discontinuity protocol -/

/-- C3: for every `skip()`, provided at least one new segment exists by
render time, the next `get_playlist` render contains exactly one
`#EXT-X-DISCONTINUITY` line; it sits at line index 4 (right after the
four headers), the very next line is an `#EXTINF` line, and no line
before it is an `#EXTINF` line — i.e. the tag is immediately before the
first `#EXTINF`. Rendering clears `discontinuity_pending`, so every
later render (whatever mix of appends, track changes and further renders
happens, as long as no `skip()` intervenes) contains zero
`#EXT-X-DISCONTINUITY` lines. -/
theorem c3_skip_discontinuity (cfg : AudioBroadcasterConfig) (st : BroadcasterState)
    (ops : List BOp)
    (hops : ∀ op ∈ ops, op ≠ BOp.skip ∧ op ≠ BOp.render)
    (hne : (broadcaster_run cfg ops (broadcaster_skip_state st)).segments ≠ []) :
    (playlist_lines cfg (broadcaster_run cfg ops (broadcaster_skip_state st))).count
        disc_line = 1
    ∧ (playlist_lines cfg (broadcaster_run cfg ops (broadcaster_skip_state st)))[4]? =
        some disc_line
    ∧ (∃ d, (playlist_lines cfg (broadcaster_run cfg ops
        (broadcaster_skip_state st)))[5]? = some (extinf_line d))
    ∧ (∀ j, j < 5 → ∀ l, (playlist_lines cfg (broadcaster_run cfg ops
        (broadcaster_skip_state st)))[j]? = some l → is_extinf_line l = false)
    ∧ (get_playlist cfg (broadcaster_run cfg ops
        (broadcaster_skip_state st))).2.discontinuity = false
    ∧ ∀ ops2 : List BOp, (∀ op ∈ ops2, op ≠ BOp.skip) →
        (playlist_lines cfg (broadcaster_run cfg ops2
          (get_playlist cfg (broadcaster_run cfg ops
            (broadcaster_skip_state st))).2)).count disc_line = 0 := by
  have hdisc : (broadcaster_run cfg ops (broadcaster_skip_state st)).discontinuity =
      true :=
    run_disc_true cfg ops hops (broadcaster_skip_state st) rfl
  rcases hsegs : (broadcaster_run cfg ops (broadcaster_skip_state st)).segments with
    _ | ⟨s, rest⟩
  · exact absurd hsegs hne
  refine ⟨?_, ?_, ?_, ?_, rfl, ?_⟩
  · rw [count_disc_lines, if_pos ⟨hdisc, hne⟩]
  · unfold playlist_lines header_lines
    rw [hdisc, hsegs, playlist_body]
    rfl
  · refine ⟨s.duration, ?_⟩
    unfold playlist_lines header_lines
    rw [hdisc, hsegs, playlist_body]
    rfl
  · intro j hj l hl
    unfold playlist_lines header_lines at hl
    rw [hdisc, hsegs, playlist_body] at hl
    interval_cases j
    · have h0 : some "#EXTM3U" = some l := hl
      rw [← Option.some.inj h0]
      decide
    · have h1 : some "#EXT-X-VERSION:3" = some l := hl
      rw [← Option.some.inj h1]
      decide
    · have h2 : some ("#EXT-X-TARGETDURATION:" ++
          toString (Int.toNat ⌈cfg.segment_duration⌉)) = some l := hl
      rw [← Option.some.inj h2]
      exact is_extinf_td _
    · have h3 : some ("#EXT-X-MEDIA-SEQUENCE:" ++ toString (broadcaster_run cfg ops
          (broadcaster_skip_state st)).media_sequence) = some l := hl
      rw [← Option.some.inj h3]
      exact is_extinf_ms _
    · have h4 : some disc_line = some l := hl
      rw [← Option.some.inj h4]
      decide
  · intro ops2 h2
    have hflag : (broadcaster_run cfg ops2 (get_playlist cfg (broadcaster_run cfg ops
        (broadcaster_skip_state st))).2).discontinuity = false :=
      run_disc_false cfg ops2 h2 _ rfl
    rw [count_disc_lines, if_neg (by rw [hflag]; simp)]

theorem c3_skip_discontinuity_witness :
    (playlist_lines default_broadcaster_config (broadcaster_run
        default_broadcaster_config [BOp.produce [9]] (broadcaster_skip_state
          (broadcaster_new default_broadcaster_config)))).count disc_line = 1
    ∧ (playlist_lines default_broadcaster_config (broadcaster_run
        default_broadcaster_config [BOp.produce [9]] (broadcaster_skip_state
          (broadcaster_new default_broadcaster_config))))[4]? = some disc_line
    ∧ (∃ d, (playlist_lines default_broadcaster_config (broadcaster_run
        default_broadcaster_config [BOp.produce [9]] (broadcaster_skip_state
          (broadcaster_new default_broadcaster_config))))[5]? = some (extinf_line d))
    ∧ (∀ j, j < 5 → ∀ l, (playlist_lines default_broadcaster_config (broadcaster_run
        default_broadcaster_config [BOp.produce [9]] (broadcaster_skip_state
          (broadcaster_new default_broadcaster_config))))[j]? = some l →
            is_extinf_line l = false)
    ∧ (get_playlist default_broadcaster_config (broadcaster_run
        default_broadcaster_config [BOp.produce [9]] (broadcaster_skip_state
          (broadcaster_new default_broadcaster_config)))).2.discontinuity = false
    ∧ ∀ ops2 : List BOp, (∀ op ∈ ops2, op ≠ BOp.skip) →
        (playlist_lines default_broadcaster_config (broadcaster_run
          default_broadcaster_config ops2 (get_playlist default_broadcaster_config
            (broadcaster_run default_broadcaster_config [BOp.produce [9]]
              (broadcaster_skip_state (broadcaster_new
                default_broadcaster_config)))).2)).count disc_line = 0 :=
  c3_skip_discontinuity default_broadcaster_config
    (broadcaster_new default_broadcaster_config) [BOp.produce [9]]
    (by decide) (by decide)

/-! ### C7: stored embeddings are unit vectors -/

theorem sum_sq_nonneg (v : List ℝ) : 0 ≤ (v.map fun x => x * x).sum := by
  refine List.sum_nonneg ?_
  intro x hx
  obtain ⟨y, _, rfl⟩ := List.mem_map.mp hx
  exact mul_self_nonneg y

/-- C7 as stated is false at the degenerate raw output: a zero vector has
L2 norm `0 ≤ 1e-10`, so `normalize_embedding` stores it unchanged and
the persisted vector has `|‖v‖₂ − 1| = 1 ≥ 1e-4`. The guard in the
source exists precisely for this input. -/
theorem c7_zero_vector_counterexample :
    stored_embedding (List.replicate 100 (0 : ℝ)) = List.replicate 100 (0 : ℝ)
    ∧ ¬ |l2_norm (stored_embedding (List.replicate 100 (0 : ℝ))) - 1| < 1e-4 := by
  have hz : l2_norm (List.replicate 100 (0 : ℝ)) = 0 := by
    unfold l2_norm
    rw [List.map_replicate]
    rw [show ((0 : ℝ) * 0) = 0 from by ring, List.sum_replicate, smul_zero,
      Real.sqrt_zero]
  have hstored : stored_embedding (List.replicate 100 (0 : ℝ)) =
      List.replicate 100 (0 : ℝ) := by
    unfold stored_embedding normalize_embedding
    rw [hz]
    norm_num
  refine ⟨hstored, ?_⟩
  rw [hstored, hz, zero_sub, abs_neg, abs_one]
  norm_num

/-- C7 (amended): whenever the raw model output has L2 norm above the
`1e-10` guard, the stored vector is exactly unit length in real
arithmetic, so `|‖v‖₂ − 1| = 0 < 1e-4`; raw outputs with norm ≤ 1e-10
are persisted unnormalized. -/
theorem c7_unit_norm_amended (v : List ℝ) (h : l2_norm v > 1e-10) :
    |l2_norm (stored_embedding v) - 1| < 1e-4 := by
  have hpos : 0 < l2_norm v := lt_trans (by norm_num) h
  have hS : 0 ≤ (v.map fun x => x * x).sum := sum_sq_nonneg v
  have hsq : l2_norm v * l2_norm v = (v.map fun x => x * x).sum :=
    Real.mul_self_sqrt hS
  have hone : l2_norm (stored_embedding v) = 1 := by
    unfold stored_embedding normalize_embedding
    rw [if_pos h]
    show Real.sqrt (((v.map fun x => x / l2_norm v).map fun x => x * x)).sum = 1
    rw [List.map_map]
    have hfun : ((fun x => x * x) ∘ fun x => x / l2_norm v) =
        fun x => (x * x) * ((l2_norm v)⁻¹ * (l2_norm v)⁻¹) := by
      funext x
      simp only [Function.comp]
      ring
    rw [hfun, List.sum_map_mul_right, ← hsq]
    rw [show l2_norm v * l2_norm v * ((l2_norm v)⁻¹ * (l2_norm v)⁻¹) = 1 from by
      field_simp]
    exact Real.sqrt_one
  rw [hone]
  norm_num

theorem c7_unit_norm_witness :
    l2_norm [(1 : ℝ)] > 1e-10 ∧ |l2_norm (stored_embedding [(1 : ℝ)]) - 1| < 1e-4 := by
  have h1 : ([(1 : ℝ)].map fun x => x * x).sum = 1 := by norm_num
  have h : l2_norm [(1 : ℝ)] > 1e-10 := by
    unfold l2_norm
    rw [h1, Real.sqrt_one]
    norm_num
  exact ⟨h, c7_unit_norm_amended [(1 : ℝ)] h⟩

/-! ### C4: pipeline skip -/

/-- C4 as stated is false: after loading the 4-sample track `"X"`, the
`Skip` handler clears the buffer and drops the current `BufferedTrack`
but sends nothing on the event channel — in particular no
`TrackEnded "X"` is ever emitted for the skipped track (and none can
come later, since the `TrackEnded` emission in `read_samples` requires a
current `BufferedTrack`, which skip just cleared). -/
theorem c4_skip_no_trackended_counterexample :
    (pipeline_run (pipeline_init 1000000
        [{ track_id := "X", title := "t", artist := "a",
           samples := [1, 2, 3, 4] }]) [PStep.load]).current_track =
      some { track_id := "X", title := "t", artist := "a",
             total_samples := 4, consumed_samples := 0 }
    ∧ (pipeline_step (pipeline_run (pipeline_init 1000000
        [{ track_id := "X", title := "t", artist := "a",
           samples := [1, 2, 3, 4] }]) [PStep.load]) PStep.skip).events =
      (pipeline_run (pipeline_init 1000000
        [{ track_id := "X", title := "t", artist := "a",
           samples := [1, 2, 3, 4] }]) [PStep.load]).events
    ∧ PipelineEvent.trackEnded "X" ∉
      (pipeline_step (pipeline_run (pipeline_init 1000000
        [{ track_id := "X", title := "t", artist := "a",
           samples := [1, 2, 3, 4] }]) [PStep.load]) PStep.skip).events := by
  refine ⟨by decide, rfl, by decide⟩

/-- C4 (amended): whenever `AudioPipeline::skip()` is processed while a
`BufferedTrack` is current, the pipeline discards the remaining samples
of that track (the buffer becomes empty), drops the current
`BufferedTrack`, and leaves the queue intact so that the next producer
iteration loads the next queued track — but it emits no event at all: in
particular no `TrackEnded` for the skipped track's id. -/
theorem c4_skip_behavior (s : PState) (bt : BufferedTrack)
    (hrun : s.running = true) (hcur : s.current_track = some bt) :
    (pipeline_step s PStep.skip).samples = []
    ∧ (pipeline_step s PStep.skip).current_track = none
    ∧ (pipeline_step s PStep.skip).track_queue = s.track_queue
    ∧ (pipeline_step s PStep.skip).events = s.events := by
  unfold pipeline_step pipeline_skip
  rw [hrun]
  exact ⟨rfl, rfl, rfl, rfl⟩

theorem c4_skip_behavior_witness :
    (⟨5, [], [], some ⟨"X", "t", "a", 4, 1⟩, true, none, [], [], []⟩ : PState).running =
      true
    ∧ (⟨5, [], [], some ⟨"X", "t", "a", 4, 1⟩, true, none, [], [], []⟩ :
        PState).current_track = some ⟨"X", "t", "a", 4, 1⟩
    ∧ ((pipeline_step ⟨5, [], [], some ⟨"X", "t", "a", 4, 1⟩, true, none, [], [], []⟩
          PStep.skip).samples = []
      ∧ (pipeline_step ⟨5, [], [], some ⟨"X", "t", "a", 4, 1⟩, true, none, [], [], []⟩
          PStep.skip).current_track = none
      ∧ (pipeline_step ⟨5, [], [], some ⟨"X", "t", "a", 4, 1⟩, true, none, [], [], []⟩
          PStep.skip).track_queue =
        (⟨5, [], [], some ⟨"X", "t", "a", 4, 1⟩, true, none, [], [], []⟩ :
          PState).track_queue
      ∧ (pipeline_step ⟨5, [], [], some ⟨"X", "t", "a", 4, 1⟩, true, none, [], [], []⟩
          PStep.skip).events =
        (⟨5, [], [], some ⟨"X", "t", "a", 4, 1⟩, true, none, [], [], []⟩ :
          PState).events) :=
  ⟨rfl, rfl, c4_skip_behavior _ ⟨"X", "t", "a", 4, 1⟩ rfl rfl⟩

/-! ### C9: JSON extraction -/

theorem find_char_idx_drop (l : List Char) (c : Char) : ∀ (i : Nat),
    find_char_idx l c = some i → (l.drop i).head? = some c := by
  induction l with
  | nil => intro i h; simp [find_char_idx] at h
  | cons a t ih =>
    intro i h
    rw [find_char_idx] at h
    by_cases hac : a = c
    · rw [if_pos hac] at h
      rw [← Option.some.inj h, List.drop_zero, List.head?_cons, hac]
    · rw [if_neg hac] at h
      obtain ⟨m, hm, rfl⟩ := Option.map_eq_some'.mp h
      rw [List.drop_succ_cons]
      exact ih m hm

theorem find_char_idx_of_head (l : List Char) (c : Char) (h : l.head? = some c) :
    find_char_idx l c = some 0 := by
  cases l with
  | nil => simp at h
  | cons a t =>
    rw [List.head?_cons] at h
    rw [find_char_idx, if_pos (Option.some.inj h)]

theorem find_object_end_lt (l : List Char) : ∀ (d : Int) (istr esc : Bool) (n : Nat),
    find_object_end l d istr esc = some n → n < l.length := by
  induction l with
  | nil => intro d istr esc n h; simp [find_object_end] at h
  | cons c rest ih =>
    intro d istr esc n h
    rw [find_object_end] at h
    rw [List.length_cons]
    split_ifs at h with h1 h2 h3 h4 h5 h6
    · obtain ⟨m, hm, rfl⟩ := Option.map_eq_some'.mp h
      exact Nat.succ_lt_succ (ih _ _ _ _ hm)
    · obtain ⟨m, hm, rfl⟩ := Option.map_eq_some'.mp h
      exact Nat.succ_lt_succ (ih _ _ _ _ hm)
    · obtain ⟨m, hm, rfl⟩ := Option.map_eq_some'.mp h
      exact Nat.succ_lt_succ (ih _ _ _ _ hm)
    · obtain ⟨m, hm, rfl⟩ := Option.map_eq_some'.mp h
      exact Nat.succ_lt_succ (ih _ _ _ _ hm)
    · rw [← Option.some.inj h]
      exact Nat.succ_pos _
    · obtain ⟨m, hm, rfl⟩ := Option.map_eq_some'.mp h
      exact Nat.succ_lt_succ (ih _ _ _ _ hm)
    · obtain ⟨m, hm, rfl⟩ := Option.map_eq_some'.mp h
      exact Nat.succ_lt_succ (ih _ _ _ _ hm)

theorem find_object_end_prefix (l₁ : List Char) : ∀ (l₂ : List Char) (d : Int)
    (istr esc : Bool) (n : Nat),
    find_object_end (l₁ ++ l₂) d istr esc = some n → n < l₁.length →
    find_object_end l₁ d istr esc = some n := by
  induction l₁ with
  | nil => intro l₂ d istr esc n _ hn; simp at hn
  | cons c t ih =>
    intro l₂ d istr esc n h hn
    rw [List.cons_append, find_object_end] at h
    rw [find_object_end]
    rw [List.length_cons] at hn
    split_ifs at h ⊢ with h1 h2 h3 h4 h5 h6
    · obtain ⟨m, hm, rfl⟩ := Option.map_eq_some'.mp h
      rw [ih _ _ _ _ _ hm (by omega)]
      rfl
    · obtain ⟨m, hm, rfl⟩ := Option.map_eq_some'.mp h
      rw [ih _ _ _ _ _ hm (by omega)]
      rfl
    · obtain ⟨m, hm, rfl⟩ := Option.map_eq_some'.mp h
      rw [ih _ _ _ _ _ hm (by omega)]
      rfl
    · obtain ⟨m, hm, rfl⟩ := Option.map_eq_some'.mp h
      rw [ih _ _ _ _ _ hm (by omega)]
      rfl
    · exact h
    · obtain ⟨m, hm, rfl⟩ := Option.map_eq_some'.mp h
      rw [ih _ _ _ _ _ hm (by omega)]
      rfl
    · obtain ⟨m, hm, rfl⟩ := Option.map_eq_some'.mp h
      rw [ih _ _ _ _ _ hm (by omega)]
      rfl

theorem find_object_end_last (l : List Char) : ∀ (d : Int) (istr esc : Bool) (n : Nat),
    find_object_end l d istr esc = some n → l[n]? = some '\x7d' := by
  induction l with
  | nil => intro d istr esc n h; simp [find_object_end] at h
  | cons c rest ih =>
    intro d istr esc n h
    rw [find_object_end] at h
    split_ifs at h with h1 h2 h3 h4 h5 h6
    · obtain ⟨m, hm, rfl⟩ := Option.map_eq_some'.mp h
      rw [List.getElem?_cons_succ]
      exact ih _ _ _ _ hm
    · obtain ⟨m, hm, rfl⟩ := Option.map_eq_some'.mp h
      rw [List.getElem?_cons_succ]
      exact ih _ _ _ _ hm
    · obtain ⟨m, hm, rfl⟩ := Option.map_eq_some'.mp h
      rw [List.getElem?_cons_succ]
      exact ih _ _ _ _ hm
    · obtain ⟨m, hm, rfl⟩ := Option.map_eq_some'.mp h
      rw [List.getElem?_cons_succ]
      exact ih _ _ _ _ hm
    · rw [← Option.some.inj h, List.getElem?_cons_zero, h5.1]
    · obtain ⟨m, hm, rfl⟩ := Option.map_eq_some'.mp h
      rw [List.getElem?_cons_succ]
      exact ih _ _ _ _ hm
    · obtain ⟨m, hm, rfl⟩ := Option.map_eq_some'.mp h
      rw [List.getElem?_cons_succ]
      exact ih _ _ _ _ hm

theorem head?_take_succ (l : List Char) (n : Nat) : (l.take (n + 1)).head? = l.head? := by
  cases l with
  | nil => rfl
  | cons a t => rfl

theorem fjoc_spec (t o : List Char) (h : find_json_object_chars t = some o) :
    o.head? = some '\x7b' ∧ o.getLast? = some '\x7d' ∧ o ≠ []
    ∧ find_json_object_chars o = some o := by
  unfold find_json_object_chars at h
  rcases hf : find_char_idx t '\x7b' with _ | start
  · simp only [hf] at h
    exact absurd h (by simp)
  rcases hs : find_object_end (t.drop start) 0 false false with _ | n
  · simp only [hf, hs] at h
    exact absurd h (by simp)
  simp only [hf, hs] at h
  have ho : o = (t.drop start).take (n + 1) := (Option.some.inj h).symm
  have hhead : (t.drop start).head? = some '\x7b' := find_char_idx_drop t '\x7b' start hf
  have hlt : n < (t.drop start).length := find_object_end_lt (t.drop start) 0 false false n hs
  have holen : o.length = n + 1 := by
    rw [ho, List.length_take]
    omega
  have hohead : o.head? = some '\x7b' := by
    rw [ho, head?_take_succ]
    exact hhead
  have holast : o.getLast? = some '\x7d' := by
    rw [List.getLast?_eq_getElem?, holen]
    rw [ho]
    rw [show n + 1 - 1 = n from rfl]
    rw [List.getElem?_take, if_pos (Nat.lt_succ_self n)]
    exact find_object_end_last (t.drop start) 0 false false n hs
  have hone : o ≠ [] := by
    intro hcon
    rw [hcon] at holen
    simp at holen
  refine ⟨hohead, holast, hone, ?_⟩
  have hsplit : o ++ (t.drop start).drop (n + 1) = t.drop start := by
    rw [ho, List.take_append_drop]
  have hoscan : find_object_end o 0 false false = some n := by
    refine find_object_end_prefix o ((t.drop start).drop (n + 1)) 0 false false n ?_ ?_
    · rw [hsplit]; exact hs
    · omega
  unfold find_json_object_chars
  simp only [find_char_idx_of_head o '\x7b' hohead, List.drop_zero, hoscan]
  rw [List.take_of_length_le (by omega)]

theorem fenced_json_result_via (t o : List Char) (h : fenced_json_result t = some o) :
    ∃ u, find_json_object_chars u = some o := by
  unfold fenced_json_result at h
  rcases h1 : find_substr_idx t "```json".data with _ | start
  · simp only [h1] at h
    exact absurd h (by simp)
  rcases h2 : find_substr_idx (t.drop (start + 7)) "```".data with _ | e
  · simp only [h1, h2] at h
    exact absurd h (by simp)
  simp only [h1, h2] at h
  exact ⟨_, h⟩

theorem plain_fence_result_via (t o : List Char) (h : plain_fence_result t = some o) :
    ∃ u, find_json_object_chars u = some o := by
  unfold plain_fence_result at h
  rcases h1 : find_substr_idx t "```".data with _ | start
  · simp only [h1] at h
    exact absurd h (by simp)
  simp only [h1] at h
  rcases h2 : find_substr_idx ((t.drop (start + 3)).drop
      (match find_char_idx (t.drop (start + 3)) '\n' with
       | some i => i + 1
       | none => 0)) "```".data with _ | e
  · simp only [h2] at h
    exact absurd h (by simp)
  simp only [h2] at h
  exact ⟨_, h⟩

theorem extract_chars_via_fjoc (t o : List Char) (h : extract_chars t = some o) :
    ∃ u, find_json_object_chars u = some o := by
  unfold extract_chars at h
  rcases h1 : fenced_json_result (trim_chars t) with _ | o1
  · simp only [h1] at h
    rcases h2 : plain_fence_result (trim_chars t) with _ | o2
    · simp only [h2] at h
      exact ⟨_, h⟩
    · simp only [h2] at h
      rw [← Option.some.inj h]
      exact plain_fence_result_via _ _ h2
  · simp only [h1] at h
    rw [← Option.some.inj h]
    exact fenced_json_result_via _ _ h1

theorem trim_chars_id (l : List Char) (hh : l.head? = some '\x7b')
    (hl : l.getLast? = some '\x7d') : trim_chars l = l := by
  unfold trim_chars
  have h1 : l.dropWhile is_rust_ws = l := by
    cases l with
    | nil => rfl
    | cons a t =>
      rw [List.head?_cons] at hh
      rw [List.dropWhile_cons, Option.some.inj hh, if_neg (by decide)]
  rw [h1]
  have h2 : l.reverse.dropWhile is_rust_ws = l.reverse := by
    rcases hr : l.reverse with _ | ⟨a, t⟩
    · rfl
    · have hrev : l.reverse.head? = some '\x7d' := by rw [List.head?_reverse]; exact hl
      rw [hr, List.head?_cons] at hrev
      rw [List.dropWhile_cons, Option.some.inj hrev, if_neg (by decide)]
  rw [h2, List.reverse_reverse]

theorem find_substr_idx_none_mono (l : List Char) : ∀ (a b : List Char),
    a.isPrefixOf b = true → find_substr_idx l a = none → find_substr_idx l b = none := by
  induction l with
  | nil =>
    intro a b hab h
    rw [find_substr_idx] at h ⊢
    by_cases hb : b.isEmpty
    · have ha : a.isEmpty := by
        have := List.isPrefixOf_iff_prefix.mp hab
        cases b with
        | nil =>
          rw [List.prefix_nil] at this
          rw [this]
          rfl
        | cons x xs => simp at hb
      rw [if_pos ha] at h
      exact absurd h (by simp)
    · rw [if_neg hb]
  | cons c t ih =>
    intro a b hab h
    rw [find_substr_idx] at h ⊢
    by_cases hpa : a.isPrefixOf (c :: t) = true
    · rw [if_pos hpa] at h
      exact absurd h (by simp)
    · rw [if_neg hpa] at h
      have hrec : find_substr_idx t a = none := by
        rcases hx : find_substr_idx t a with _ | m
        · rfl
        · rw [hx] at h; exact absurd h (by simp)
      by_cases hpb : b.isPrefixOf (c :: t) = true
      · exact absurd (List.isPrefixOf_iff_prefix.mpr
          ((List.isPrefixOf_iff_prefix.mp hab).trans
            (List.isPrefixOf_iff_prefix.mp hpb))) hpa
      · rw [if_neg hpb, ih a b hab hrec]
        rfl

/-- C9 as stated is false: extraction is not idempotent and its output
need not be valid JSON. For the input below, the fence paths fail (their
contents do not brace-match) and the raw brace-match returns
`o = "\x7b```json \x7b\x7d ```\x7d"`; but extracting from `o` itself finds the
```` ```json ```` fence embedded between the braces and returns `"\x7b\x7d"`
instead of `o`; and `o` does not parse as a JSON object. -/
theorem c9_extract_counterexample :
    extract_first_json_object "```json\n\x7b```json \x7b\x7d ```\x7d\n```" =
      some "\x7b```json \x7b\x7d ```\x7d"
    ∧ extract_first_json_object "\x7b```json \x7b\x7d ```\x7d" = some "\x7b\x7d"
    ∧ ("\x7b\x7d" : String) ≠ "\x7b```json \x7b\x7d ```\x7d"
    ∧ is_valid_json_object "\x7b```json \x7b\x7d ```\x7d" = false := by
  refine ⟨by decide, by decide, by decide, by decide⟩

/-- C9 (amended): every extraction output `o` begins with `\x7b` and ends
with `\x7d` (it is a brace-balanced candidate, though not necessarily
valid JSON), and extraction is idempotent on outputs that contain no
```` ``` ```` fence marker: if `extract_first_json_object s = some o` and
`o` has no ```` ``` ```` substring, then
`extract_first_json_object o = some o`. -/
theorem c9_extract_amended (s o : String)
    (h : extract_first_json_object s = some o)
    (hfence : find_substr_idx o.data "```".data = none) :
    o.data.head? = some '\x7b' ∧ o.data.getLast? = some '\x7d'
    ∧ extract_first_json_object o = some o := by
  unfold extract_first_json_object at h
  rcases hx : extract_chars s.data with _ | l
  · rw [hx] at h; exact absurd h (by simp)
  rw [hx] at h
  have ho : o = ⟨l⟩ := (Option.some.inj h).symm
  have hodata : o.data = l := by rw [ho]
  obtain ⟨u, hu⟩ := extract_chars_via_fjoc _ _ hx
  obtain ⟨hhead, hlast, _, hself⟩ := fjoc_spec u l hu
  rw [hodata] at hfence
  refine ⟨by rw [hodata]; exact hhead, by rw [hodata]; exact hlast, ?_⟩
  unfold extract_first_json_object
  rw [hodata]
  have htrim : trim_chars l = l := trim_chars_id l hhead hlast
  have hfj : find_substr_idx l "```json".data = none :=
    find_substr_idx_none_mono l "```".data "```json".data (by decide) hfence
  have h1 : fenced_json_result l = none := by
    unfold fenced_json_result
    simp only [hfj]
  have h2 : plain_fence_result l = none := by
    unfold plain_fence_result
    simp only [hfence]
  have hex : extract_chars l = some l := by
    unfold extract_chars
    simp only [htrim, h1, h2]
    exact hself
  rw [hex, ho]
  rfl

theorem c9_extract_amended_witness :
    extract_first_json_object "reply: \x7b\"a\": [1, 2]\x7d end" =
      some "\x7b\"a\": [1, 2]\x7d"
    ∧ find_substr_idx ("\x7b\"a\": [1, 2]\x7d" : String).data "```".data = none
    ∧ (("\x7b\"a\": [1, 2]\x7d" : String).data.head? = some '\x7b'
      ∧ ("\x7b\"a\": [1, 2]\x7d" : String).data.getLast? = some '\x7d'
      ∧ extract_first_json_object "\x7b\"a\": [1, 2]\x7d" =
          some "\x7b\"a\": [1, 2]\x7d") :=
  ⟨by decide, by decide,
    c9_extract_amended "reply: \x7b\"a\": [1, 2]\x7d end" "\x7b\"a\": [1, 2]\x7d"
      (by decide) (by decide)⟩

/-! ### C1: pipeline sample concatenation -/

theorem bump_last_concat : ∀ (l : List LogEntry) (e : LogEntry) (k : Nat),
    bump_last (l ++ [e]) k = l ++ [{ e with sent := e.sent + k }] := by
  intro l
  induction l with
  | nil => intro e k; rfl
  | cons x rest ih =>
    intro e k
    rcases hr : rest ++ [e] with _ | ⟨y, t⟩
    · exact absurd hr (by simp)
    · rw [List.cons_append, hr]
      show x :: bump_last (y :: t) k = _
      rw [← hr, ih]
      rfl

theorem set_last_cut_concat : ∀ (l : List LogEntry) (e : LogEntry),
    set_last_cut (l ++ [e]) = l ++ [{ e with cut := true }] := by
  intro l
  induction l with
  | nil => intro e; rfl
  | cons x rest ih =>
    intro e
    rcases hr : rest ++ [e] with _ | ⟨y, t⟩
    · exact absurd hr (by simp)
    · rw [List.cons_append, hr]
      show x :: set_last_cut (y :: t) = _
      rw [← hr, ih]
      rfl

theorem bump_last_cut : ∀ (l : List LogEntry) (k : Nat) (x : LogEntry),
    x ∈ bump_last l k → ∃ y ∈ l, x.cut = y.cut := by
  intro l
  induction l with
  | nil => intro k x hx; simp [bump_last] at hx
  | cons e rest ih =>
    intro k x hx
    cases rest with
    | nil =>
      simp only [bump_last, List.mem_singleton] at hx
      exact ⟨e, List.mem_singleton_self e, by rw [hx]⟩
    | cons e2 rest2 =>
      rw [show bump_last (e :: e2 :: rest2) k = e :: bump_last (e2 :: rest2) k from
        rfl] at hx
      rcases List.mem_cons.mp hx with hx1 | hx2
      · exact ⟨e, List.mem_cons_self _ _, by rw [hx1]⟩
      · obtain ⟨y, hy, hcut⟩ := ih k x hx2
        exact ⟨y, List.mem_cons_of_mem _ hy, hcut⟩

theorem load_track_inv (ts : List Track) (s : PState) (h : PipelineInv ts s) :
    PipelineInv ts (load_track s) := by
  obtain ⟨h1, h2, h3, h4, h5, h6⟩ := h
  unfold load_track
  by_cases hg : s.current_track = none ∧ s.samples.length < s.max_samples / 2
  · rw [if_pos hg]
    rcases hq : s.track_queue with _ | ⟨t, rest⟩
    · exact ⟨h1, h2, h3, h4, h5, h6⟩
    · simp only [hq]
      have hsamp : s.samples = [] := h5 hg.1
      have hcl : closed_log s = s.log := by
        unfold closed_log
        rw [hg.1]
        rfl
      refine ⟨?_, ?_, ?_, ?_, ?_, ?_⟩
      · show (s.log ++ [({ track := t, sent := 0, cut := false } : LogEntry)]).map
            LogEntry.track ++ rest = ts
        rw [List.map_append, List.append_assoc]
        show s.log.map LogEntry.track ++ (t :: rest) = ts
        rw [← hq]
        exact h1
      · show s.drained = ((s.log ++
            [({ track := t, sent := 0, cut := false } : LogEntry)]).map
              sent_slice).flatten
        rw [List.map_append, List.flatten_append]
        show s.drained = (s.log.map sent_slice).flatten ++
          (sent_slice { track := t, sent := 0, cut := false } ++ [])
        unfold sent_slice
        simp only [List.take_zero, List.nil_append, List.append_nil]
        exact h2
      · intro e he
        rcases List.mem_append.mp he with hold | hnew
        · exact h3 e hold
        · rw [List.mem_singleton.mp hnew]
          exact Nat.zero_le _
      · show ∀ e ∈ (s.log ++
            [({ track := t, sent := 0, cut := false } : LogEntry)]).dropLast,
          e.cut = false → e.sent = e.track.samples.length
        rw [List.dropLast_concat]
        intro e he
        exact h4 e (by rw [hcl]; exact he)
      · intro hcon
        exact absurd hcon (Option.some_ne_none _)
      · intro bt hbt
        have hbt2 : some (⟨t.track_id, t.title, t.artist, t.samples.length, 0⟩ :
            BufferedTrack) = some bt := hbt
        cases Option.some.inj hbt2
        refine ⟨s.log, { track := t, sent := 0, cut := false }, rfl, rfl, rfl, rfl,
          rfl, ?_⟩
        show s.samples ++ t.samples = t.samples.drop 0
        rw [hsamp, List.nil_append, List.drop_zero]
  · rw [if_neg hg]
    exact ⟨h1, h2, h3, h4, h5, h6⟩

theorem read_samples_inv (ts : List Track) (s : PState) (n : Nat)
    (h : PipelineInv ts s) : PipelineInv ts (read_samples s n) := by
  obtain ⟨h1, h2, h3, h4, h5, h6⟩ := h
  unfold read_samples
  rcases hc : s.current_track with _ | bt
  · simp only [hc]
    have hsamp : s.samples = [] := h5 hc
    have hcl : closed_log s = s.log := by
      unfold closed_log
      rw [hc]
      rfl
    refine ⟨h1, ?_, h3, ?_, ?_, ?_⟩
    · show s.drained ++ s.samples.take (min s.samples.length n) =
        (s.log.map sent_slice).flatten
      rw [hsamp, List.take_nil, List.append_nil]
      exact h2
    · intro x hx
      have hx2 : x ∈ s.log := hx
      exact h4 x (by rw [hcl]; exact hx2)
    · intro _
      show s.samples.drop (min s.samples.length n) = []
      rw [hsamp, List.drop_nil]
    · intro bt hbt
      have hbt2 : (none : Option BufferedTrack) = some bt := hbt
      exact absurd hbt2 (by simp)
  · simp only [hc]
    obtain ⟨l₀, e, hlog, hid, htot, hcons, hcut, hbuf⟩ := h6 bt hc
    have hmeme : e ∈ s.log := by
      rw [hlog]
      exact List.mem_append_right l₀ (List.mem_singleton_self e)
    have he3 : e.sent ≤ e.track.samples.length := h3 e hmeme
    have hslen : s.samples.length = e.track.samples.length - e.sent := by
      rw [hbuf, List.length_drop]
    have hcl : closed_log s = l₀ := by
      simp only [closed_log, hc, Option.isSome_some, if_true]
      rw [hlog, List.dropLast_concat]
    set av := min s.samples.length n with hav
    have havle : av ≤ s.samples.length := by
      rw [hav]
      exact Nat.min_le_left _ _
    have hmap : (l₀ ++ [({ e with sent := e.sent + av } : LogEntry)]).map
        LogEntry.track = (l₀ ++ [e]).map LogEntry.track := by
      simp [List.map_append]
    have hss : sent_slice ({ e with sent := e.sent + av } : LogEntry) =
        e.track.samples.take (e.sent + av) := rfl
    by_cases hfin : bt.total_samples ≤ bt.consumed_samples + av
    · rw [if_pos hfin]
      have heq : e.sent + av = e.track.samples.length := by
        rw [htot, hcons] at hfin
        omega
      refine ⟨?_, ?_, ?_, ?_, ?_, ?_⟩
      · show (bump_last s.log av).map LogEntry.track ++ s.track_queue = ts
        rw [hlog, bump_last_concat, hmap, ← hlog]
        exact h1
      · show s.drained ++ s.samples.take av =
          ((bump_last s.log av).map sent_slice).flatten
        rw [hlog, bump_last_concat, List.map_append, List.flatten_append,
          h2, hlog, List.map_append, List.flatten_append]
        show (l₀.map sent_slice).flatten ++ (sent_slice e ++ []) ++
            s.samples.take av =
          (l₀.map sent_slice).flatten ++ (sent_slice { e with sent := e.sent + av } ++ [])
        rw [hss]
        show _ ++ (e.track.samples.take e.sent ++ []) ++ s.samples.take av = _
        rw [List.take_add, hbuf]
        simp [List.append_assoc]
      · intro x hx
        rw [hlog, bump_last_concat] at hx
        rcases List.mem_append.mp hx with hx1 | hx2
        · exact h3 x (by rw [hlog]; exact List.mem_append_left _ hx1)
        · rw [List.mem_singleton.mp hx2]
          show e.sent + av ≤ e.track.samples.length
          omega
      · show ∀ x ∈ bump_last s.log av, x.cut = false → x.sent = x.track.samples.length
        rw [hlog, bump_last_concat]
        intro x hx
        rcases List.mem_append.mp hx with hx1 | hx2
        · exact h4 x (by rw [hcl]; exact hx1)
        · rw [List.mem_singleton.mp hx2]
          intro _
          show e.sent + av = e.track.samples.length
          exact heq
      · intro _
        show s.samples.drop av = []
        have : av = s.samples.length := by omega
        rw [this, List.drop_length]
      · intro bt' hbt'
        have hbt2 : (none : Option BufferedTrack) = some bt' := hbt'
        exact absurd hbt2 (by simp)
    · rw [if_neg hfin]
      refine ⟨?_, ?_, ?_, ?_, ?_, ?_⟩
      · show (bump_last s.log av).map LogEntry.track ++ s.track_queue = ts
        rw [hlog, bump_last_concat, hmap, ← hlog]
        exact h1
      · show s.drained ++ s.samples.take av =
          ((bump_last s.log av).map sent_slice).flatten
        rw [hlog, bump_last_concat, List.map_append, List.flatten_append,
          h2, hlog, List.map_append, List.flatten_append]
        show (l₀.map sent_slice).flatten ++ (sent_slice e ++ []) ++
            s.samples.take av =
          (l₀.map sent_slice).flatten ++ (sent_slice { e with sent := e.sent + av } ++ [])
        rw [hss]
        show _ ++ (e.track.samples.take e.sent ++ []) ++ s.samples.take av = _
        rw [List.take_add, hbuf]
        simp [List.append_assoc]
      · intro x hx
        rw [hlog, bump_last_concat] at hx
        rcases List.mem_append.mp hx with hx1 | hx2
        · exact h3 x (by rw [hlog]; exact List.mem_append_left _ hx1)
        · rw [List.mem_singleton.mp hx2]
          show e.sent + av ≤ e.track.samples.length
          rw [htot, hcons] at hfin
          omega
      · show ∀ x ∈ (bump_last s.log av).dropLast,
          x.cut = false → x.sent = x.track.samples.length
        rw [hlog, bump_last_concat, List.dropLast_concat]
        intro x hx
        exact h4 x (by rw [hcl]; exact hx)
      · intro hcon
        have hbt2 : some ({ bt with consumed_samples := bt.consumed_samples + av } :
            BufferedTrack) = none := hcon
        exact absurd hbt2 (by simp)
      · intro bt' hbt'
        have hbt2 : some ({ bt with consumed_samples := bt.consumed_samples + av } :
            BufferedTrack) = some bt' := hbt'
        cases Option.some.inj hbt2
        refine ⟨l₀, { e with sent := e.sent + av }, ?_, hid, htot, ?_, hcut, ?_⟩
        · rw [hlog, bump_last_concat]
        · show bt.consumed_samples + av = e.sent + av
          rw [hcons]
        · show s.samples.drop av = e.track.samples.drop (e.sent + av)
          rw [hbuf, List.drop_drop]

theorem pipeline_skip_inv (ts : List Track) (s : PState) (h : PipelineInv ts s) :
    PipelineInv ts (pipeline_skip s) := by
  obtain ⟨h1, h2, h3, h4, h5, h6⟩ := h
  unfold pipeline_skip
  rcases hc : s.current_track with _ | bt
  · have hcl : closed_log s = s.log := by
      unfold closed_log
      rw [hc]
      rfl
    refine ⟨h1, h2, h3, ?_, ?_, ?_⟩
    · intro x hx
      have hx2 : x ∈ s.log := hx
      exact h4 x (by rw [hcl]; exact hx2)
    · intro _
      rfl
    · intro bt hbt
      have hbt2 : (none : Option BufferedTrack) = some bt := hbt
      exact absurd hbt2 (by simp)
  · obtain ⟨l₀, e, hlog, hid, htot, hcons, hcut, hbuf⟩ := h6 bt hc
    have hcl : closed_log s = l₀ := by
      simp only [closed_log, hc, Option.isSome_some, if_true]
      rw [hlog, List.dropLast_concat]
    refine ⟨?_, ?_, ?_, ?_, ?_, ?_⟩
    · show (set_last_cut s.log).map LogEntry.track ++ s.track_queue = ts
      rw [hlog, set_last_cut_concat]
      have : (l₀ ++ [({ e with cut := true } : LogEntry)]).map LogEntry.track =
          (l₀ ++ [e]).map LogEntry.track := by
        simp [List.map_append]
      rw [this, ← hlog]
      exact h1
    · show s.drained = ((set_last_cut s.log).map sent_slice).flatten
      rw [hlog, set_last_cut_concat]
      have : (l₀ ++ [({ e with cut := true } : LogEntry)]).map sent_slice =
          (l₀ ++ [e]).map sent_slice := by
        simp [List.map_append, sent_slice]
      rw [this, ← hlog]
      exact h2
    · intro x hx
      show x.sent ≤ x.track.samples.length
      rw [hlog, set_last_cut_concat] at hx
      rcases List.mem_append.mp hx with hx1 | hx2
      · exact h3 x (by rw [hlog]; exact List.mem_append_left _ hx1)
      · rw [List.mem_singleton.mp hx2]
        exact h3 e (by rw [hlog]; exact List.mem_append_right _ (List.mem_singleton_self e))
    · show ∀ x ∈ set_last_cut s.log, x.cut = false → x.sent = x.track.samples.length
      rw [hlog, set_last_cut_concat]
      intro x hx
      rcases List.mem_append.mp hx with hx1 | hx2
      · exact h4 x (by rw [hcl]; exact hx1)
      · rw [List.mem_singleton.mp hx2]
        intro hcon
        exact absurd hcon (by simp)
    · intro _
      rfl
    · intro bt' hbt'
      have hbt2 : (none : Option BufferedTrack) = some bt' := hbt'
      exact absurd hbt2 (by simp)

theorem pipeline_stop_inv (ts : List Track) (s : PState) (h : PipelineInv ts s) :
    PipelineInv ts (pipeline_stop s) := by
  obtain ⟨h1, h2, h3, h4, h5, h6⟩ := h
  exact ⟨h1, h2, h3, h4, h5, h6⟩

theorem pipeline_step_inv (ts : List Track) (s : PState) (st : PStep)
    (hf : st ≠ PStep.loadFail) (hq : is_queue_step st = false)
    (h : PipelineInv ts s) : PipelineInv ts (pipeline_step s st) := by
  unfold pipeline_step
  by_cases hr : s.running = true
  · rw [if_pos hr]
    cases st with
    | load => exact load_track_inv ts s h
    | loadFail => exact absurd rfl hf
    | read n => exact read_samples_inv ts s n h
    | skip => exact pipeline_skip_inv ts s h
    | stop => exact pipeline_stop_inv ts s h
    | queueTrack t => exact absurd hq (by simp [is_queue_step])
  · rw [if_neg hr]
    exact h

theorem pipeline_run_inv (ts : List Track) (steps : List PStep) :
    ∀ s : PState, PipelineInv ts s →
      (∀ st ∈ steps, st ≠ PStep.loadFail ∧ is_queue_step st = false) →
      PipelineInv ts (pipeline_run s steps) := by
  induction steps with
  | nil => intro s h _; exact h
  | cons st rest ih =>
    intro s h hsteps
    have hst := hsteps st (List.mem_cons_self st rest)
    exact ih (pipeline_step s st)
      (pipeline_step_inv ts s st hst.1 hst.2 h)
      (fun o ho => hsteps o (List.mem_cons_of_mem st ho))

theorem read_samples_log (s : PState) (n : Nat) :
    (read_samples s n).log = s.log ∨
    (read_samples s n).log = bump_last s.log (min s.samples.length n) := by
  unfold read_samples
  rcases hc : s.current_track with _ | bt
  · exact Or.inl rfl
  · simp only [hc]
    by_cases hfin : bt.total_samples ≤ bt.consumed_samples + min s.samples.length n
    · rw [if_pos hfin]
      exact Or.inr rfl
    · rw [if_neg hfin]
      exact Or.inr rfl

theorem cut_free_step (s : PState) (st : PStep) (hst : st ≠ PStep.skip)
    (hcf : cut_free s) : cut_free (pipeline_step s st) := by
  unfold pipeline_step
  by_cases hr : s.running = true
  · rw [if_pos hr]
    cases st with
    | load =>
      unfold load_track
      by_cases hg : s.current_track = none ∧ s.samples.length < s.max_samples / 2
      · rw [if_pos hg]
        rcases hq : s.track_queue with _ | ⟨t, rest⟩
        · exact hcf
        · intro x hx
          have hx2 : x ∈ s.log ++ [({ track := t, sent := 0, cut := false } :
              LogEntry)] := hx
          rcases List.mem_append.mp hx2 with hx3 | hx4
          · exact hcf x hx3
          · rw [List.mem_singleton.mp hx4]
      · rw [if_neg hg]
        exact hcf
    | loadFail =>
      unfold load_track_failure
      by_cases hg : s.current_track = none ∧ s.samples.length < s.max_samples / 2
      · rw [if_pos hg]
        rcases hq : s.track_queue with _ | ⟨t, rest⟩
        · exact hcf
        · exact hcf
      · rw [if_neg hg]
        exact hcf
    | read n =>
      intro x hx
      have hx2 : x ∈ (read_samples s n).log := hx
      rcases read_samples_log s n with hl | hl
      · rw [hl] at hx2
        exact hcf x hx2
      · rw [hl] at hx2
        obtain ⟨y, hy, hxy⟩ := bump_last_cut s.log _ x hx2
        rw [hxy]
        exact hcf y hy
    | skip => exact absurd rfl hst
    | stop => exact hcf
    | queueTrack t => exact hcf
  · rw [if_neg hr]
    exact hcf

theorem pipeline_run_cut_free (steps : List PStep) :
    ∀ s : PState, cut_free s → (∀ st ∈ steps, st ≠ PStep.skip) →
      cut_free (pipeline_run s steps) := by
  induction steps with
  | nil => intro s h _; exact h
  | cons st rest ih =>
    intro s h hsteps
    exact ih (pipeline_step s st)
      (cut_free_step s st (hsteps st (List.mem_cons_self st rest)) h)
      (fun o ho => hsteps o (List.mem_cons_of_mem st ho))

theorem pipeline_init_inv (ts : List Track) (max_samples : Nat) :
    PipelineInv ts (pipeline_init max_samples ts) := by
  refine ⟨?_, rfl, ?_, ?_, ?_, ?_⟩
  · show List.map LogEntry.track [] ++ ts = ts
    rfl
  · intro e he
    exact absurd he (List.not_mem_nil e)
  · intro e he
    exact absurd he (List.not_mem_nil e)
  · intro _
    rfl
  · intro bt hbt
    have hbt2 : (none : Option BufferedTrack) = some bt := hbt
    exact absurd hbt2 (by simp)

/-- C1: in any run of a started pipeline on an initial queue `ts` whose
tracks all decode successfully (no `loadFail` steps; no extra
`queue_track`s), the loaded tracks listed in the ghost log are exactly a
prefix of the queue in order; the full sequence of samples handed out by
`read_samples` is exactly the concatenation, in queue order, of the
first `sent` samples of each loaded track (no duplication, reordering,
or dropping); `sent` never exceeds a track's decoded length; every
retired entry that no skip cut short was drained completely (so the
output is interrupted only at `skip()` points, where the undrained tail
of the current track is discarded); and if the run contains no `skip()`
then no entry is cut at all. -/
theorem c1_read_samples_concatenation (ts : List Track) (max_samples : Nat)
    (steps : List PStep)
    (hsteps : ∀ st ∈ steps, st ≠ PStep.loadFail ∧ is_queue_step st = false) :
    ((pipeline_run (pipeline_init max_samples ts) steps).log.map LogEntry.track) ++
        (pipeline_run (pipeline_init max_samples ts) steps).track_queue = ts
    ∧ (pipeline_run (pipeline_init max_samples ts) steps).drained =
        (((pipeline_run (pipeline_init max_samples ts) steps).log.map
          sent_slice)).flatten
    ∧ (∀ e ∈ (pipeline_run (pipeline_init max_samples ts) steps).log,
        e.sent ≤ e.track.samples.length)
    ∧ (∀ e ∈ closed_log (pipeline_run (pipeline_init max_samples ts) steps),
        e.cut = false → e.sent = e.track.samples.length)
    ∧ ((∀ st ∈ steps, st ≠ PStep.skip) →
        ∀ e ∈ (pipeline_run (pipeline_init max_samples ts) steps).log,
          e.cut = false) := by
  obtain ⟨h1, h2, h3, h4, _, _⟩ :=
    pipeline_run_inv ts steps (pipeline_init max_samples ts)
      (pipeline_init_inv ts max_samples) hsteps
  refine ⟨h1, h2, h3, h4, ?_⟩
  intro hns
  exact pipeline_run_cut_free steps (pipeline_init max_samples ts)
    (fun e he => absurd he (List.not_mem_nil e)) hns

theorem c1_read_samples_concatenation_witness :
    (∀ st ∈ [PStep.load, PStep.read 2, PStep.read 2, PStep.load, PStep.read 1,
        PStep.skip], st ≠ PStep.loadFail ∧ is_queue_step st = false)
    ∧ (((pipeline_run (pipeline_init 1000
          [⟨"a", "A", "aa", [1, 2, 3]⟩, ⟨"b", "B", "bb", [4, 5]⟩])
          [PStep.load, PStep.read 2, PStep.read 2, PStep.load, PStep.read 1,
            PStep.skip]).log.map LogEntry.track) ++
        (pipeline_run (pipeline_init 1000
          [⟨"a", "A", "aa", [1, 2, 3]⟩, ⟨"b", "B", "bb", [4, 5]⟩])
          [PStep.load, PStep.read 2, PStep.read 2, PStep.load, PStep.read 1,
            PStep.skip]).track_queue =
        [⟨"a", "A", "aa", [1, 2, 3]⟩, ⟨"b", "B", "bb", [4, 5]⟩]
      ∧ (pipeline_run (pipeline_init 1000
          [⟨"a", "A", "aa", [1, 2, 3]⟩, ⟨"b", "B", "bb", [4, 5]⟩])
          [PStep.load, PStep.read 2, PStep.read 2, PStep.load, PStep.read 1,
            PStep.skip]).drained =
        (((pipeline_run (pipeline_init 1000
          [⟨"a", "A", "aa", [1, 2, 3]⟩, ⟨"b", "B", "bb", [4, 5]⟩])
          [PStep.load, PStep.read 2, PStep.read 2, PStep.load, PStep.read 1,
            PStep.skip]).log.map sent_slice)).flatten
      ∧ (∀ e ∈ (pipeline_run (pipeline_init 1000
          [⟨"a", "A", "aa", [1, 2, 3]⟩, ⟨"b", "B", "bb", [4, 5]⟩])
          [PStep.load, PStep.read 2, PStep.read 2, PStep.load, PStep.read 1,
            PStep.skip]).log, e.sent ≤ e.track.samples.length)
      ∧ (∀ e ∈ closed_log (pipeline_run (pipeline_init 1000
          [⟨"a", "A", "aa", [1, 2, 3]⟩, ⟨"b", "B", "bb", [4, 5]⟩])
          [PStep.load, PStep.read 2, PStep.read 2, PStep.load, PStep.read 1,
            PStep.skip]), e.cut = false → e.sent = e.track.samples.length)
      ∧ ((∀ st ∈ [PStep.load, PStep.read 2, PStep.read 2, PStep.load,
            PStep.read 1, PStep.skip], st ≠ PStep.skip) →
          ∀ e ∈ (pipeline_run (pipeline_init 1000
            [⟨"a", "A", "aa", [1, 2, 3]⟩, ⟨"b", "B", "bb", [4, 5]⟩])
            [PStep.load, PStep.read 2, PStep.read 2, PStep.load, PStep.read 1,
              PStep.skip]).log, e.cut = false)) :=
  ⟨by decide,
    c1_read_samples_concatenation
      [⟨"a", "A", "aa", [1, 2, 3]⟩, ⟨"b", "B", "bb", [4, 5]⟩] 1000
      [PStep.load, PStep.read 2, PStep.read 2, PStep.load, PStep.read 1, PStep.skip]
      (by decide)⟩

theorem c8_fill_gaps_amended_witness :
    (["s0", "s1", "s2"] : List String) ≠ []
    ∧ (["s0", "s1", "s2"] : List String).length ≤ 7
    ∧ (["a", "b", "c", "d"] : List String).length =
        7 - (["s0", "s1", "s2"] : List String).length
    ∧ ((fill_gaps_between_seeds ["s0", "s1", "s2"] 7 ["a", "b", "c", "d"]).length = 7
      ∧ (fill_gaps_between_seeds ["s0", "s1", "s2"] 7 ["a", "b", "c", "d"]).head? =
          (["s0", "s1", "s2"] : List String).head?
      ∧ ∀ k, k < (["s0", "s1", "s2"] : List String).length →
          (fill_gaps_between_seeds ["s0", "s1", "s2"] 7 ["a", "b", "c", "d"])[k +
              k * ((7 - (["s0", "s1", "s2"] : List String).length) /
                (["s0", "s1", "s2"] : List String).length) +
              min k ((7 - (["s0", "s1", "s2"] : List String).length) %
                (["s0", "s1", "s2"] : List String).length)]? =
            (["s0", "s1", "s2"] : List String)[k]?) :=
  ⟨by decide, by decide, by decide,
    c8_fill_gaps_amended ["s0", "s1", "s2"] ["a", "b", "c", "d"] 7
      (by decide) (by decide) (by decide)⟩
